import Mathlib

/-
  Verification development for the webppl core: the CPS transformer
  (src/unnamed/part_000, a.k.a. the cps module) and the inference-kernel
  framework (src/src/inference/kernels.js).

  The JavaScript code is shallowly embedded:
  * JS configuration values are modelled by the inductive types JVal
    (function-free inputs of parseOptions) and PVal (JS values that may
    contain the dispatch closures parseOptions creates; those closures
    are defunctionalised as the PVal.closure constructor carrying the
    kernel name and the compiled static options).
  * Kernels follow the call contract kernel(continuation, trace, options).
    Side effects are modelled by threading an explicit store of type S,
    so a continuation is a function T → S → Option R and a kernel takes
    (continuation, trace, options, store).  A JS function declared with
    two parameters but invoked with three simply ignores the third
    argument; such functions are modelled as Lean functions that take
    and discard the options argument.
  * The external MH and HMC kernels (required from ./mhkernel and
    ./hmckernel, not part of this repository's core sources) are
    abstract parameters MHK and HMCK.
  * Non-termination and dynamic type errors (calling a non-function)
    are modelled by an Option result together with a fuel parameter in
    the functions that can recurse through data.
-/

namespace Webppl

/-- Function-free JavaScript values: the inputs of parseOptions. -/
inductive JVal where
  | undef
  | bool (b : Bool)
  | num (n : Int)
  | str (s : String)
  | arr (xs : List JVal)
  | obj (fields : List (String × JVal))

/-- JavaScript values possibly containing the partially-applied kernel
closures built by parseOptions.  A closure `PVal.closure name so` is the
function `(cont, oldTrace, extraOptions) => kernels[name](cont, oldTrace,
_.extendOwn(\x7b\x7d, so, extraOptions))` from kernels.js lines 72-75,
defunctionalised: `name` is the registered kernel name and `so` the
already-parsed static options. -/
inductive PVal where
  | undef
  | bool (b : Bool)
  | num (n : Int)
  | str (s : String)
  | closure (name : String) (staticOpts : PVal)
  | arr (xs : List PVal)
  | obj (fields : List (String × PVal))

/-- First-match lookup in a JS object's field list.  JS objects never
hold duplicate keys, so on well-formed field lists first match and last
match agree. -/
def getField : List (String × PVal) → String → Option PVal
  | [], _ => none
  | (k', v') :: rest, k => if k' = k then some v' else getField rest k

/-- Property write `o[k] = v`: replaces the binding if the key is
present, appends it otherwise. -/
def setKey : List (String × PVal) → String → PVal → List (String × PVal)
  | [], k, v => [(k, v)]
  | (k', v') :: rest, k, v =>
    if k' = k then (k, v) :: rest else (k', v') :: setKey rest k v

/-- The own enumerable key/value pairs of a JS value, as enumerated by
underscore's extendOwn: objects contribute their fields, arrays their
elements under the index keys "0", "1", ..., and primitives (and
functions, which have no own enumerable properties) contribute
nothing. -/
def keyVals : PVal → List (String × PVal)
  | PVal.obj fs => fs
  | PVal.arr xs => (List.range xs.length).zip xs |>.map (fun p => (toString p.1, p.2))
  | _ => []

/-- `_.extendOwn(dest, src)` for one source: copy every own enumerable
property of `src` into `dest`, in order, overwriting on key conflict.
Later writes win, exactly as in underscore. -/
def extendOwnP (dest src : PVal) : PVal :=
  match dest with
  | PVal.obj fs => PVal.obj ((keyVals src).foldl (fun d kv => setKey d kv.1 kv.2) fs)
  | d => d

/-- `_.extendOwn(\x7b\x7d, so, extra)`: the option merge performed by the
closures parseOptions builds (kernels.js line 73).  Dynamically supplied
keys (from `extra`) land last and therefore override statically declared
ones (from `so`). -/
def mergeOpts (so extra : PVal) : PVal :=
  extendOwnP (extendOwnP (PVal.obj []) so) extra

/-- JS member read `v.k`: a field of an object, undefined otherwise. -/
def pGet (v : PVal) (k : String) : PVal :=
  match v with
  | PVal.obj fs => (getField fs k).getD PVal.undef
  | _ => PVal.undef

/-- A continuation under the kernel call contract: it receives a trace
(and the threaded store). -/
def Kont (T S R : Type) : Type := T → S → Option R

/-- A kernel: `kernel(continuation, trace, options)` plus the threaded
store.  `Option R` models crashes/divergence of the overall run. -/
def Kern (T S R : Type) : Type := Kont T S R → T → PVal → S → Option R

/-- kernels.js lines 87-92.  `tap(fn)` wraps a side-effecting inspection
function: the returned kernel is declared with parameters (k, trace)
only, so an options argument supplied at call time is discarded.  `fn`
is an effectful JS function: it receives the trace and the current
store, and produces a (discarded) result together with the new store. -/
def tap {T S R α : Type} (fn : T → S → α × S) : Kern T S R :=
  fun k trace _options s => k trace (fn trace s).2

/-- The two-kernel body of the `sequence` combinator (kernels.js lines
98-102): run the first kernel, then the second on the first's resulting
trace.  The returned kernel is declared with parameters (k, trace1)
only, and both sub-kernels are invoked with just two arguments, so their
options parameter receives `undefined`. -/
def sequence2 {T S R : Type} (k0 k1 : Kern T S R) : Kern T S R :=
  fun k trace1 _options s =>
    k0 (fun trace2 s2 => k1 k trace2 PVal.undef s2) trace1 PVal.undef s

/-- kernels.js lines 94-108.  The variadic pairwise `sequence`
combinator over its argument list: `assert(kernels.length > 1)` is
modelled by returning `none` for fewer than two kernels; for exactly
two it returns the two-kernel body; for more it recurses as
`sequence(kernels[0], sequence(...rest))`, a right-associative fold. -/
def sequence {T S R : Type} : List (Kern T S R) → Option (Kern T S R)
  | [k0, k1] => some (sequence2 k0 k1)
  | k0 :: r1 :: r2 :: rest => (sequence (r1 :: r2 :: rest)).map (fun kr => sequence2 k0 kr)
  | _ => none

/-- kernels.js lines 27-34.  `HMCwithMHKernel(cont, oldTrace, options)`
runs the HMC kernel, then hands the resulting trace to the MH kernel
with options `_.extendOwn(\x7b discreteOnly: true \x7d, options)`: the outer
options are copied over a fresh object that starts with
discreteOnly = true, so the outer options override that default on key
conflict.  The HMC and MH kernels are external and abstract here. -/
def HMCwithMHKernel {T S R : Type} (HMCKernel MHKernel : Kern T S R) : Kern T S R :=
  fun cont oldTrace options s =>
    HMCKernel
      (fun trace s2 =>
        MHKernel cont trace
          (extendOwnP (PVal.obj [("discreteOnly", PVal.bool true)]) options) s2)
      oldTrace options s

/-- The keys of the registered kernel table (kernels.js lines 36-41). -/
def kernelNames : List String := ["MH", "HMC", "HMConly", "sequence"]

/-- kernels.js lines 55-59.  A value is a kernel option if it is a
registered kernel name, or a size-one mapping whose single key is a
registered kernel name.  (For a string, underscore's `_.size` is its
length and `_.keys` is empty, so the second disjunct can never fire;
for an array, `_.keys(...)[0]` is the index key "0", never a registered
name; primitives have size 0.) -/
def isKernelOption : JVal → Bool
  | JVal.str s => kernelNames.contains s
  | JVal.obj [(k, _)] => kernelNames.contains k
  | _ => false

/-- kernels.js lines 61-63: the referenced kernel's name. -/
def getKernelName : JVal → String
  | JVal.str s => s
  | JVal.obj ((k, _) :: _) => k
  | _ => ""

/-- kernels.js lines 65-67: the static sub-options of a kernel
reference: an empty object for a bare name, the single value
otherwise. -/
def getKernelOptions : JVal → JVal
  | JVal.str _ => JVal.obj []
  | JVal.obj ((_, v) :: _) => v
  | _ => JVal.undef

/-- kernels.js lines 53-83, fueled (the fuel dominates the recursion
depth; `none` means the fuel ran out, an artifact of the embedding).
A recognized kernel reference compiles to a dispatch closure over its
recursively parsed static options; arrays and other objects are
recursed into structurally; any other scalar passes through. -/
def parseOptionsF : Nat → JVal → Option PVal
  | 0, _ => none
  | fuel + 1, v =>
    if isKernelOption v then
      (parseOptionsF fuel (getKernelOptions v)).map (PVal.closure (getKernelName v))
    else
      match v with
      | JVal.arr xs => (xs.mapM (fun x => parseOptionsF fuel x)).map PVal.arr
      | JVal.obj fs =>
        (fs.mapM (fun kv => (parseOptionsF fuel kv.2).map (fun p => (kv.1, p)))).map PVal.obj
      | JVal.undef => some PVal.undef
      | JVal.bool b => some (PVal.bool b)
      | JVal.num n => some (PVal.num n)
      | JVal.str s => some (PVal.str s)

/-- The `iter` loop of sequenceKernel (kernels.js lines 14-23),
abstracted over the function `app` that applies one stored kernel
value: a singleton list short-circuits to a direct call, otherwise the
head kernel runs with a continuation that recurses on the rest.  Every
stage is invoked with the full `options` object. -/
def seqIterF {T S R : Type} (app : PVal → Kont T S R → T → PVal → S → Option R) :
    List PVal → Kont T S R → T → PVal → S → Option R
  | [], _, _, _, _ => none
  | [k], cont, trace, options, s => app k cont trace options s
  | k :: k2 :: rest, cont, trace, options, s =>
    app k (fun trace2 s2 => seqIterF app (k2 :: rest) cont trace2 options s2) trace options s

/-- Application of a stored kernel value (the call `kernels[name](cont,
oldTrace, allOptions)` of kernels.js line 74 together with the
registered table of lines 36-41).  Applying anything but a dispatch
closure, or looking up an unregistered name, is a JS TypeError,
modelled as `none`.  The "sequence" entry is sequenceKernel
(lines 12-25) inlined: it reads `options.kernels` and runs the stored
kernels in order, passing the same options object to every stage. -/
def applyPK {T S R : Type} (MHK HMCK : Kern T S R) : Nat → PVal → Kont T S R → T → PVal → S → Option R
  | 0, _, _, _, _, _ => none
  | fuel + 1, v, cont, oldTrace, extraOptions, s =>
    match v with
    | PVal.closure name so =>
      match
        (match name with
         | "MH" => some MHK
         | "HMC" => some (HMCwithMHKernel HMCK MHK)
         | "HMConly" => some HMCK
         | "sequence" =>
           some (fun cont2 trace2 options2 s2 =>
             match pGet options2 "kernels" with
             | PVal.arr ks =>
               seqIterF (fun v2 c2 t2 o2 sv2 => applyPK MHK HMCK fuel v2 c2 t2 o2 sv2)
                 ks cont2 trace2 options2 s2
             | _ => none)
         | _ => none) with
      | some kf => kf cont oldTrace (mergeOpts so extraOptions) s
      | none => none
    | _ => none

/-- The registered kernel table (kernels.js lines 36-41) as a lookup
function, at a given fuel for the sequence entry. -/
def kernelsTable {T S R : Type} (MHK HMCK : Kern T S R) (fuel : Nat) (name : String) :
    Option (Kont T S R → T → PVal → S → Option R) :=
  match name with
  | "MH" => some MHK
  | "HMC" => some (HMCwithMHKernel HMCK MHK)
  | "HMConly" => some HMCK
  | "sequence" =>
    some (fun cont2 trace2 options2 s2 =>
      match pGet options2 "kernels" with
      | PVal.arr ks => seqIterF (applyPK MHK HMCK fuel) ks cont2 trace2 options2 s2
      | _ => none)
  | _ => none

/-- sequenceKernel (kernels.js lines 12-25) as a standalone definition:
reads the ordered sub-kernel list from `options.kernels` and pipes each
stage's resulting trace into the next, forwarding the whole options
object to every stage. -/
def sequenceKernelF {T S R : Type} (MHK HMCK : Kern T S R) (fuel : Nat) :
    Kont T S R → T → PVal → S → Option R :=
  fun cont oldTrace options s =>
    match pGet options "kernels" with
    | PVal.arr ks => seqIterF (applyPK MHK HMCK fuel) ks cont oldTrace options s
    | _ => none

end Webppl


namespace Webppl

/-
  The CPS transformer (src/unnamed/part_000).

  The input/output syntax trees are modelled by the inductive Node,
  covering exactly the node kinds the transformer dispatches on plus a
  constructor `other` standing for any unsupported node kind (carrying
  its type tag).  Identifiers occur as Node values, as in the
  ast-types builders.  The gensym facility lives in util.js, which is
  not among the sources; it is modelled from the spec (a monotonic
  counter + name prefix, unique per compilation unit) threaded as
  explicit state.  JS exceptions (throw / failed assert) are modelled
  by a structured error type, and the embedding's fuel parameter (an
  artifact, not part of the source) reports exhaustion as a separate
  Res.out outcome.
-/

/-- Values carried by Literal nodes of the restricted grammar. -/
inductive LitVal where
  | num (n : Int)
  | bool (b : Bool)
  | str (s : String)
  | null
  deriving DecidableEq

/-- Syntax-tree nodes.  A variable declaration carries its declarator
list as (id, init) pairs; an object property carries (kind, key,
value). -/
inductive Node where
  | program (body : List Node)
  | blockStatement (body : List Node)
  | expressionStatement (expression : Node)
  | returnStatement (argument : Node)
  | emptyStatement
  | identifier (name : String)
  | literal (value : LitVal)
  | functionExpression (params : List Node) (body : Node)
  | variableDeclaration (declarations : List (Node × Node))
  | callExpression (callee : Node) (args : List Node)
  | ifStatement (test : Node) (consequent : Node) (alternate : Option Node)
  | conditionalExpression (test : Node) (consequent : Node) (alternate : Node)
  | arrayExpression (elements : List Node)
  | objectExpression (properties : List (String × Node × Node))
  | memberExpression (object : Node) (property : Node) (computed : Bool)
  | unaryExpression (operator : String) (argument : Node) (pfx : Bool)
  | binaryExpression (operator : String) (left : Node) (right : Node)
  | other (kind : String)

/-- The esprima type tag of a node (node.type). -/
def typeName : Node → String
  | Node.program _ => "Program"
  | Node.blockStatement _ => "BlockStatement"
  | Node.expressionStatement _ => "ExpressionStatement"
  | Node.returnStatement _ => "ReturnStatement"
  | Node.emptyStatement => "EmptyStatement"
  | Node.identifier _ => "Identifier"
  | Node.literal _ => "Literal"
  | Node.functionExpression _ _ => "FunctionExpression"
  | Node.variableDeclaration _ => "VariableDeclaration"
  | Node.callExpression _ _ => "CallExpression"
  | Node.ifStatement _ _ _ => "IfStatement"
  | Node.conditionalExpression _ _ _ => "ConditionalExpression"
  | Node.arrayExpression _ => "ArrayExpression"
  | Node.objectExpression _ => "ObjectExpression"
  | Node.memberExpression _ _ _ => "MemberExpression"
  | Node.unaryExpression _ _ _ => "UnaryExpression"
  | Node.binaryExpression _ _ _ => "BinaryExpression"
  | Node.other kind => kind

/-- types.namedTypes.Statement.check: the statement kinds of the
restricted grammar (declarations are statements). -/
def isStatementNode : Node → Bool
  | Node.blockStatement _ => true
  | Node.expressionStatement _ => true
  | Node.returnStatement _ => true
  | Node.emptyStatement => true
  | Node.ifStatement _ _ _ => true
  | Node.variableDeclaration _ => true
  | _ => false

/-- types.namedTypes.Expression.check for the restricted grammar. -/
def isExpressionNode : Node → Bool
  | Node.identifier _ => true
  | Node.literal _ => true
  | Node.functionExpression _ _ => true
  | Node.callExpression _ _ => true
  | Node.conditionalExpression _ _ _ => true
  | Node.arrayExpression _ => true
  | Node.objectExpression _ => true
  | Node.memberExpression _ _ _ => true
  | Node.unaryExpression _ _ _ => true
  | Node.binaryExpression _ _ _ => true
  | _ => false

/-- Structured model of the exceptions the transformer can throw:
`unknownNode fn kind` is `throw new Error(fn + ": unknown node type: "
+ kind)` (and convertToStatement's "can't handle" error), carrying the
offending node kind; `assertEqualNat a e` is the AssertionError of
`assert.equal(a, e)`, whose default message shows the two numbers and
mentions no node kind; `assertFail` is a failed `assert.ok`;
`typeError` is a host TypeError (e.g. reading `.type` of undefined). -/
inductive Cerr where
  | unknownNode (fn : String) (kind : String)
  | assertEqualNat (actual expected : Nat)
  | assertFail
  | typeError
  deriving DecidableEq

/-- The node kind reported by an error, if any. -/
def errKind : Cerr → Option String
  | Cerr.unknownNode _ kind => some kind
  | _ => none

/-- Outcome of a transformer computation: a value plus the next gensym
counter, a thrown error, or fuel exhaustion (an embedding artifact). -/
inductive Res (α : Type) where
  | ok (a : α) (n : Nat)
  | err (e : Cerr)
  | out

/-- The transformer's effect monad: gensym-counter state with
exceptions. -/
def CM (α : Type) : Type := Nat → Res α

instance : Monad CM where
  pure a := fun n => Res.ok a n
  bind m f := fun n =>
    match m n with
    | Res.ok a n' => f a n'
    | Res.err e => Res.err e
    | Res.out => Res.out

/-- Throw a JS exception. -/
def throwC {α : Type} (e : Cerr) : CM α := fun _ => Res.err e

/-- Fuel exhaustion (embedding artifact). -/
def noFuel {α : Type} : CM α := fun _ => Res.out

/-- Lift a pure, possibly-throwing computation. -/
def liftE {α : Type} : Except Cerr α → CM α
  | Except.ok a => fun n => Res.ok a n
  | Except.error e => fun _ => Res.err e

/-- The fresh name produced at counter value n for a given prefix. -/
def gname (pfx : String) (n : Nat) : String := "_" ++ pfx ++ toString n

/-- part_000 lines 17-19.  Modelled from the spec: util.gensym comes
from util.js, which is missing from the sources; per the spec's data
model it is a monotonic counter + name prefix whose names are unique
within one compilation unit.  makeGensymVariable prepends "_". -/
def makeGensymVariable (name : String) : CM Node :=
  fun n => Res.ok (Node.identifier (gname name n)) (n + 1)

/-- part_000 line 15: the reserved return-continuation identifier. -/
def returnContIdentifier : Node := Node.identifier "_return"

/-- part_000 lines 21-29. -/
def convertToStatement (node : Node) : Except Cerr Node :=
  if isStatementNode node then Except.ok node
  else if isExpressionNode node then Except.ok (Node.expressionStatement node)
  else Except.error (Cerr.unknownNode "convertToStatement" (typeName node))

/-- part_000 lines 31-38. -/
def buildFunc (args : List Node) (body : Node) : Except Cerr Node :=
  match body with
  | Node.blockStatement _ => Except.ok (Node.functionExpression args body)
  | b => (convertToStatement b).map
      (fun st => Node.functionExpression args (Node.blockStatement [st]))

/-- part_000 lines 76-79: a declaration whose first declarator's
initializer is a function expression.  (An empty declarator list cannot
be produced by the parser; it is not a function declaration here.) -/
def isFunctionDeclaration : Node → Bool
  | Node.variableDeclaration ((_, Node.functionExpression _ _) :: _) => true
  | _ => false

/-- The `(atFinalElement, getFinalElement)` callback pairs passed to
cpsSequence at its five call sites, defunctionalised: `block` is
cpsBlock's generic branch (lines 99-104), `primApp op` is
cpsPrimitiveApplication (108-117), `compApp` is
cpsCompoundApplication (119-128), `unaryK`/`binaryK` are
cpsUnary/BinaryExpression (138-161), and `arrayK` is
cpsArrayExpression (200-208). -/
inductive SeqKind where
  | block
  | primApp (opNode : Node)
  | compApp
  | unaryK (op : String) (pfx : Bool)
  | binaryK (op : String)
  | arrayK

/-- The per-call-site `atFinalElement` predicate: cpsBlock stops at the
last statement, every other call site runs to the empty list. -/
def atFinalElement : SeqKind → List Node → Bool
  | SeqKind.block, nodes => nodes.length == 1
  | _, nodes => nodes.length == 0

mutual

/-- part_000 lines 40-59 (cpsAtomic).  A function expression gets a
fresh continuation parameter prepended to its parameter list, and its
body is compiled against that parameter after re-binding the reserved
return continuation to it. -/
def cpsAtomicF : Nat → Node → CM Node
  | 0, _ => noFuel
  | fuel + 1, node =>
    match node with
    | Node.functionExpression params body => do
      let newCont ← makeGensymVariable "k"
      let bodyNode ← cpsF fuel body newCont
      let bodyStmt ← liftE (convertToStatement bodyNode)
      liftE (buildFunc (newCont :: params)
        (Node.blockStatement
          [Node.variableDeclaration [(returnContIdentifier, newCont)], bodyStmt]))
    | Node.identifier name => pure (Node.identifier name)
    | Node.literal v => pure (Node.literal v)
    | Node.emptyStatement => pure (Node.identifier "undefined")
    | n => throwC (Cerr.unknownNode "cpsAtomic" (typeName n))

/-- The `getFinalElement` callbacks of the five cpsSequence call
sites.  `block`: compile the last statement against the block's
continuation.  `primApp`: call the untransformed member-expression
callee on the bound operand names and deliver the result to the
continuation.  `compApp`: re-emit the call with the bound callee name
in operator position and the continuation prepended to the bound
argument names.  `unaryK`/`binaryK`: rebuild the operator expression
over the bound names (the source's `assert.ok(vars.length == 2)`
becomes the binary arity check) and deliver it.  `arrayK`: rebuild the
array literal and deliver it.  List accesses the JS source performs on
lists its call sites cannot make empty are modelled as TypeError. -/
def cpsSeqFinal : Nat → SeqKind → Node → List Node → List Node → CM Node
  | 0, _, _, _, _ => noFuel
  | fuel + 1, kind, cont, nodes, vars =>
    match kind with
    | SeqKind.block =>
      match nodes with
      | n :: _ => cpsF fuel n cont
      | [] => throwC Cerr.typeError
    | SeqKind.primApp opNode =>
      pure (Node.callExpression cont [Node.callExpression opNode vars])
    | SeqKind.compApp =>
      match vars with
      | v0 :: rest => pure (Node.callExpression v0 (cont :: rest))
      | [] => throwC Cerr.typeError
    | SeqKind.unaryK op pfx =>
      match vars with
      | v :: _ => pure (Node.callExpression cont [Node.unaryExpression op v pfx])
      | [] => throwC Cerr.typeError
    | SeqKind.binaryK op =>
      match vars with
      | [v0, v1] => pure (Node.callExpression cont [Node.binaryExpression op v0 v1])
      | _ => throwC Cerr.assertFail
    | SeqKind.arrayK =>
      pure (Node.callExpression cont [Node.arrayExpression vars])

/-- part_000 lines 61-74 (cpsSequence).  Compiles the first remaining
operand with a continuation binding a fresh name and recursing on the
rest; the recursive call is evaluated (as an argument of buildFunc,
itself an argument of cps) before cps(nodes[0], ...) runs, so the
gensym counter is consumed in that order, as in JS. -/
def cpsSequenceF : Nat → SeqKind → Node → List Node → List Node → CM Node
  | 0, _, _, _, _ => noFuel
  | fuel + 1, kind, cont, nodes, vars =>
    if atFinalElement kind nodes then
      cpsSeqFinal fuel kind cont nodes vars
    else
      match nodes with
      | [] => throwC Cerr.typeError
      | n0 :: rest => do
        let nextVar ← makeGensymVariable "s"
        let restNode ← cpsSequenceF fuel kind cont rest (vars ++ [nextVar])
        let contFunc ← liftE (buildFunc [nextVar] restNode)
        cpsF fuel n0 contFunc

/-- part_000 lines 81-106 (cpsBlock).  A leading single-declarator
function declaration followed by further statements is bound directly
in the enclosing scope (so adjacent top-level function definitions can
reference each other), the remainder is compiled recursively, and one
level of nested block structure is flattened; otherwise the statements
go through the generic sequencing primitive. -/
def cpsBlockF : Nat → List Node → Node → CM Node
  | 0, _, _ => noFuel
  | fuel + 1, nodes, cont =>
    match nodes with
    | node :: rest =>
      if 0 < rest.length && isFunctionDeclaration node then
        match node with
        | Node.variableDeclaration decls =>
          match decls with
          | [(declId, declInit)] => do
            let atom ← cpsAtomicF fuel declInit
            let newDeclNode := Node.variableDeclaration [(declId, atom)]
            let remainder ← cpsBlockF fuel rest cont
            match remainder with
            | Node.blockStatement body =>
              pure (Node.blockStatement (newDeclNode :: body))
            | r => do
              let st ← liftE (convertToStatement r)
              pure (Node.blockStatement [newDeclNode, st])
          | ds => throwC (Cerr.assertEqualNat ds.length 1)
        | _ => throwC Cerr.typeError
      else
        cpsSequenceF fuel SeqKind.block cont (node :: rest) []
    | [] => cpsSequenceF fuel SeqKind.block cont [] []

/-- part_000 lines 130-136 (cpsApplication): member-expression callees
are primitive applications, everything else is a compound
application (operator and operands sequenced together, continuation
prepended at the final call). -/
def cpsApplicationF : Nat → Node → List Node → Node → CM Node
  | 0, _, _, _ => noFuel
  | fuel + 1, opNode, argNodes, cont =>
    match opNode with
    | Node.memberExpression o p c =>
      cpsSequenceF fuel (SeqKind.primApp (Node.memberExpression o p c)) cont argNodes []
    | op => cpsSequenceF fuel SeqKind.compApp cont (op :: argNodes) []

/-- part_000 lines 178-198 (cpsIf).  The continuation is bound under a
fresh name to avoid code blowup; the test is compiled with a
continuation that emits a host if-statement over the two branches.
The consequent is compiled against the fresh continuation name; a
missing else-branch becomes a direct invocation of the original
continuation expression `cont` with undefined (the source uses `cont`
here, not the fresh binding). -/
def cpsIfF : Nat → Node → Node → Option Node → Node → CM Node
  | 0, _, _, _, _ => noFuel
  | fuel + 1, test, consequent, alternate, cont => do
    let contName ← makeGensymVariable "cont"
    let testName ← makeGensymVariable "test"
    let consequentNode ← cpsF fuel consequent contName
    let alternateNode ←
      match alternate with
      | none => pure (Node.callExpression cont [Node.identifier "undefined"])
      | some alt => cpsF fuel alt contName
    let cStmt ← liftE (convertToStatement consequentNode)
    let aStmt ← liftE (convertToStatement alternateNode)
    let innerFunc ← liftE (buildFunc [testName]
      (Node.ifStatement testName cStmt (some aStmt)))
    let testNode ← cpsF fuel test innerFunc
    let outerFunc ← liftE (buildFunc [contName] testNode)
    pure (Node.callExpression outerFunc [cont])

/-- part_000 lines 163-176 (cpsConditional): as cpsIf, emitting a host
conditional expression; both branches are compiled against the bound
continuation name. -/
def cpsConditionalF : Nat → Node → Node → Node → Node → CM Node
  | 0, _, _, _, _ => noFuel
  | fuel + 1, test, consequent, alternate, cont => do
    let contName ← makeGensymVariable "cont"
    let testName ← makeGensymVariable "test"
    let consequentNode ← cpsF fuel consequent contName
    let alternateNode ← cpsF fuel alternate contName
    let innerFunc ← liftE (buildFunc [testName]
      (Node.conditionalExpression testName consequentNode alternateNode))
    let testNode ← cpsF fuel test innerFunc
    let outerFunc ← liftE (buildFunc [contName] testNode)
    pure (Node.callExpression outerFunc [cont])

/-- part_000 lines 210-225 (cpsObjectExpression): sequence the property
values, rebuilding each property with its original kind and key over a
fresh name; the recursive call on the remaining properties is evaluated
before cps(properties[0].value, ...), as in JS argument order. -/
def cpsObjectF : Nat → List (String × Node × Node) → Node → List (String × Node × Node) → CM Node
  | 0, _, _, _ => noFuel
  | fuel + 1, properties, cont, props =>
    match properties with
    | [] => pure (Node.callExpression cont [Node.objectExpression props])
    | (kind, key, value) :: rest => do
      let nextVal ← makeGensymVariable "ob"
      let restNode ← cpsObjectF fuel rest cont (props ++ [(kind, key, nextVal)])
      let contFunc ← liftE (buildFunc [nextVal] restNode)
      cpsF fuel value contFunc

/-- part_000 lines 227-244 (cpsMemberExpression).  Both fresh names are
generated before any compilation; a computed access compiles object
then property, a static access compiles only the object. -/
def cpsMemberF : Nat → Node → Node → Bool → Node → CM Node
  | 0, _, _, _, _ => noFuel
  | fuel + 1, obj, prop, computed, cont =>
    if computed then do
      let objName ← makeGensymVariable "obj"
      let propName ← makeGensymVariable "prop"
      let innerFunc ← liftE (buildFunc [propName]
        (Node.callExpression cont [Node.memberExpression objName propName true]))
      let propNode ← cpsF fuel prop innerFunc
      let outerFunc ← liftE (buildFunc [objName] propNode)
      cpsF fuel obj outerFunc
    else do
      let objName ← makeGensymVariable "obj"
      let contFunc ← liftE (buildFunc [objName]
        (Node.callExpression cont [Node.memberExpression objName prop false]))
      cpsF fuel obj contFunc

/-- part_000 lines 246-260 (cpsVariableDeclaration): a function-valued
initializer is bound directly (compiled atomically) and the
continuation is invoked with undefined; any other initializer is
compiled with a continuation binding the declared name and then
invoking the outer continuation with undefined. -/
def cpsVariableDeclarationF : Nat → Node → Node → Node → CM Node
  | 0, _, _, _ => noFuel
  | fuel + 1, declarationId, declarationInit, cont =>
    match declarationInit with
    | Node.functionExpression ps b => do
      let atom ← cpsAtomicF fuel (Node.functionExpression ps b)
      let callStmt ← liftE (convertToStatement
        (Node.callExpression cont [Node.identifier "undefined"]))
      pure (Node.blockStatement
        [Node.variableDeclaration [(declarationId, atom)], callStmt])
    | init => do
      let contFunc ← liftE (buildFunc [declarationId]
        (Node.callExpression cont [Node.identifier "undefined"]))
      cpsF fuel init contFunc

/-- part_000 lines 262-316 (cps): the main dispatcher.  The source's
thin wrappers cpsUnaryExpression, cpsBinaryExpression and
cpsArrayExpression are inlined as cpsSequence calls with the
corresponding defunctionalised callback kind.  A multi-declarator
declaration fails the `assert.equal(node.declarations.length, 1)`
check; an unsupported node kind hits the default case and throws an
error naming that kind. -/
def cpsF : Nat → Node → Node → CM Node
  | 0, _, _ => noFuel
  | fuel + 1, node, cont =>
    match node with
    | Node.blockStatement body => cpsBlockF fuel body cont
    | Node.program body => do
      let b ← cpsBlockF fuel body cont
      let st ← liftE (convertToStatement b)
      pure (Node.program [st])
    | Node.returnStatement argument => cpsF fuel argument returnContIdentifier
    | Node.expressionStatement e => cpsF fuel e cont
    | Node.emptyStatement => do
      let a ← cpsAtomicF fuel Node.emptyStatement
      pure (Node.callExpression cont [a])
    | Node.identifier name => do
      let a ← cpsAtomicF fuel (Node.identifier name)
      pure (Node.callExpression cont [a])
    | Node.literal v => do
      let a ← cpsAtomicF fuel (Node.literal v)
      pure (Node.callExpression cont [a])
    | Node.functionExpression ps b => do
      let a ← cpsAtomicF fuel (Node.functionExpression ps b)
      pure (Node.callExpression cont [a])
    | Node.variableDeclaration decls =>
      match decls with
      | [(declId, declInit)] => cpsVariableDeclarationF fuel declId declInit cont
      | ds => throwC (Cerr.assertEqualNat ds.length 1)
    | Node.callExpression callee args => cpsApplicationF fuel callee args cont
    | Node.ifStatement test consequent alternate => cpsIfF fuel test consequent alternate cont
    | Node.conditionalExpression t c a => cpsConditionalF fuel t c a cont
    | Node.arrayExpression elements => cpsSequenceF fuel SeqKind.arrayK cont elements []
    | Node.objectExpression properties => cpsObjectF fuel properties cont []
    | Node.memberExpression obj prop computed => cpsMemberF fuel obj prop computed cont
    | Node.unaryExpression op arg pfx => cpsSequenceF fuel (SeqKind.unaryK op pfx) cont [arg] []
    | Node.binaryExpression op l r => cpsSequenceF fuel (SeqKind.binaryK op) cont [l, r] []
    | Node.other kind => throwC (Cerr.unknownNode "cps" kind)

end

end Webppl

namespace Webppl

/-
  A fueled evaluator for the restricted grammar, used to run compiled
  trees and observe which external functions they invoke, with which
  arguments, in which order.  External ("native") functions are the
  test harness: a plain native logs (tag, args) and returns its fixed
  result, as a host primitive or recording continuation would; a
  CPS-convention native receives its continuation as first argument,
  logs (tag, the remaining args) and invokes that continuation on its
  fixed result.  Functions return undefined unless a return statement
  runs, as in JS; compiled output never contains return statements
  (they are rewritten to calls of the reserved return continuation), so
  closure application evaluates the body for its effects and returns
  undefined.  Dynamic errors and fuel exhaustion are both `none`.
-/

/-- Runtime values.  `closure` carries parameter names, body and the
captured environment; `native` is an external function with a fixed
return value. -/
inductive Value where
  | undef
  | nul
  | num (n : Int)
  | bool (b : Bool)
  | str (s : String)
  | closure (params : List String) (body : Node) (env : List (String × Value))
  | varr (xs : List Value)
  | vobj (fields : List (String × Value))
  | native (isCps : Bool) (tag : String) (ret : Value)

/-- Environments map names to values, innermost binding first. -/
abbrev Env : Type := List (String × Value)

/-- One observation: an invoked native's tag and logged arguments. -/
abbrev LEnt : Type := String × List Value

/-- The evaluator's effect monad: an append-only observation log, with
`none` for dynamic errors or fuel exhaustion. -/
def EM (α : Type) : Type := List LEnt → Option (α × List LEnt)

instance : Monad EM where
  pure a := fun log => some (a, log)
  bind m f := fun log =>
    match m log with
    | some (a, log') => f a log'
    | none => none

/-- Record one observation. -/
def emit (e : LEnt) : EM Unit := fun log => some ((), log ++ [e])

/-- Fail (dynamic error or exhausted fuel). -/
def failE {α : Type} : EM α := fun _ => none

/-- Lift an option. -/
def liftO {α : Type} : Option α → EM α
  | some a => pure a
  | none => failE

/-- First-match association lookup (environments, object fields). -/
def assocV : List (String × Value) → String → Option Value
  | [], _ => none
  | (k', v') :: rest, k => if k' = k then some v' else assocV rest k

/-- JS truthiness. -/
def truthy : Value → Bool
  | Value.undef => false
  | Value.nul => false
  | Value.bool b => b
  | Value.num n => decide (n ≠ 0)
  | Value.str s => decide (s ≠ "")
  | _ => true

/-- Literal node values. -/
def litToValue : LitVal → Value
  | LitVal.num n => Value.num n
  | LitVal.bool b => Value.bool b
  | LitVal.str s => Value.str s
  | LitVal.null => Value.nul

/-- Parameter names of a function expression (identifiers by
grammar). -/
def paramNames : List Node → Option (List String)
  | [] => some []
  | Node.identifier n :: rest => (paramNames rest).map (fun ns => n :: ns)
  | _ => none

/-- The key string of an object-literal property. -/
def keyString : Node → Option String
  | Node.identifier n => some n
  | Node.literal (LitVal.str s) => some s
  | Node.literal (LitVal.num n) => some (toString n)
  | _ => none

/-- The operators the instances exercise; anything else fails. -/
def binOp : String → Value → Value → Option Value
  | "+", Value.num a, Value.num b => some (Value.num (a + b))
  | "+", Value.str a, Value.str b => some (Value.str (a ++ b))
  | "-", Value.num a, Value.num b => some (Value.num (a - b))
  | "*", Value.num a, Value.num b => some (Value.num (a * b))
  | "<", Value.num a, Value.num b => some (Value.bool (decide (a < b)))
  | _, _, _ => none

def unaryOp : String → Value → Option Value
  | "-", Value.num a => some (Value.num (-a))
  | "!", v => some (Value.bool (!truthy v))
  | _, _ => none

/-- Bind call arguments to parameter names (missing arguments become
undefined, surplus arguments are dropped, later duplicate parameters
shadow earlier ones), over the captured environment. -/
def bindParams (params : List String) (args : List Value) (env : Env) : Env :=
  (params.zip (args ++ List.replicate (params.length - args.length) Value.undef)).foldl
    (fun e pa => pa :: e) env

mutual

/-- Evaluate one node. -/
def evalF : Nat → Env → Node → EM Value
  | 0, _, _ => failE
  | fuel + 1, env, node =>
    match node with
    | Node.program body => evalStmtsF fuel env body Value.undef
    | Node.blockStatement body => evalStmtsF fuel env body Value.undef
    | Node.expressionStatement e => evalF fuel env e
    | Node.emptyStatement => pure Value.undef
    | Node.identifier name =>
      if name = "undefined" then pure Value.undef else liftO (assocV env name)
    | Node.literal v => pure (litToValue v)
    | Node.functionExpression params body => do
      let ps ← liftO (paramNames params)
      pure (Value.closure ps body env)
    | Node.callExpression callee args => do
      let f ← evalF fuel env callee
      let avs ← evalListF fuel env args
      applyV fuel f avs
    | Node.ifStatement test cons alt => do
      let t ← evalF fuel env test
      if truthy t then evalF fuel env cons
      else
        match alt with
        | some a => evalF fuel env a
        | none => pure Value.undef
    | Node.conditionalExpression test cons alt => do
      let t ← evalF fuel env test
      if truthy t then evalF fuel env cons else evalF fuel env alt
    | Node.arrayExpression els => do
      let vs ← evalListF fuel env els
      pure (Value.varr vs)
    | Node.objectExpression props => do
      let fs ← evalFieldsF fuel env props
      pure (Value.vobj fs)
    | Node.memberExpression obj prop computed => do
      let o ← evalF fuel env obj
      if computed then do
        let p ← evalF fuel env prop
        match o, p with
        | Value.vobj fs, Value.str s => pure ((assocV fs s).getD Value.undef)
        | Value.varr xs, Value.num i =>
          if 0 ≤ i then pure ((xs.get? i.toNat).getD Value.undef) else failE
        | _, _ => failE
      else
        match prop, o with
        | Node.identifier name, Value.vobj fs => pure ((assocV fs name).getD Value.undef)
        | _, _ => failE
    | Node.unaryExpression op arg _ => do
      let v ← evalF fuel env arg
      liftO (unaryOp op v)
    | Node.binaryExpression op l r => do
      let lv ← evalF fuel env l
      let rv ← evalF fuel env r
      liftO (binOp op lv rv)
    | _ => failE

/-- Evaluate a list of expressions left to right. -/
def evalListF : Nat → Env → List Node → EM (List Value)
  | 0, _, _ => failE
  | _ + 1, _, [] => pure []
  | fuel + 1, env, e :: rest => do
    let v ← evalF fuel env e
    let vs ← evalListF fuel env rest
    pure (v :: vs)

/-- Evaluate object-literal fields left to right. -/
def evalFieldsF : Nat → Env → List (String × Node × Node) → EM (List (String × Value))
  | 0, _, _ => failE
  | _ + 1, _, [] => pure []
  | fuel + 1, env, (_, key, value) :: rest => do
    let k ← liftO (keyString key)
    let v ← evalF fuel env value
    let fs ← evalFieldsF fuel env rest
    pure ((k, v) :: fs)

/-- Evaluate a statement sequence, threading declarations into the
environment and returning the last completion value. -/
def evalStmtsF : Nat → Env → List Node → Value → EM Value
  | 0, _, _, _ => failE
  | _ + 1, _, [], last => pure last
  | fuel + 1, env, Node.variableDeclaration decls :: rest, _ =>
    match decls with
    | [(Node.identifier x, init)] => do
      let v ← evalF fuel env init
      evalStmtsF fuel ((x, v) :: env) rest Value.undef
    | _ => failE
  | fuel + 1, env, st :: rest, _ => do
    let v ← evalF fuel env st
    evalStmtsF fuel env rest v

/-- Apply a function value. -/
def applyV : Nat → Value → List Value → EM Value
  | 0, _, _ => failE
  | fuel + 1, Value.closure params body env, args => do
    let _ ← evalF fuel (bindParams params args env) body
    pure Value.undef
  | fuel + 1, Value.native true tag ret, args =>
    match args with
    | k :: rest => do
      emit (tag, rest)
      applyV fuel k [ret]
    | [] => failE
  | _ + 1, Value.native false tag ret, args => do
    emit (tag, args)
    pure ret
  | _ + 1, _, _ => failE

end

end Webppl

namespace Webppl

/-- Member-expression test on callees (cpsApplication's dispatch). -/
def isMemberNode : Node → Bool
  | Node.memberExpression _ _ _ => true
  | _ => false

/-- Compile a program against a named continuation identifier (gensym
counter starting at 0) and run the compiled tree in the given
environment, returning the final value and the observation log. -/
def runCompiled (cfuel efuel : Nat) (p : Node) (contName : String) (env : Env) :
    Option (Value × List LEnt) :=
  match cpsF cfuel p (Node.identifier contName) 0 with
  | Res.ok t _ => evalF efuel env t []
  | _ => none

/-- types.namedTypes.FunctionExpression.check on a node. -/
def isFunctionNode : Node → Bool
  | Node.functionExpression _ _ => true
  | _ => false

/-- One link of a compiled sequencing chain over operands that invoke
external (native) functions: the operand tag(), the fresh name the
chain's continuation binds to the operand's value (outerName), the
fresh name the operand's own compound application binds to the callee
value (innerName), and the external function's result. -/
structure ChainLink where
  tag : String
  outerName : String
  innerName : String
  ret : Value

/-- The tree cpsSequence produces over native-call operands: each link
is the compiled compound application of tag() — the callee value is
bound under innerName and called with the chain continuation
prepended — and the chain continuation binds the operand's value under
outerName and continues with the rest of the chain; the final
element's code sits innermost. -/
def chainNode (finalB : Node) : List ChainLink → Node
  | [] => finalB
  | l :: rest =>
    Node.callExpression
      (Node.functionExpression [Node.identifier l.innerName]
        (Node.blockStatement [Node.expressionStatement
          (Node.callExpression (Node.identifier l.innerName)
            [Node.functionExpression [Node.identifier l.outerName]
              (Node.blockStatement
                [Node.expressionStatement (chainNode finalB rest)])])]))
      [Node.identifier l.tag]

/-- The environment in which the chain's final element runs: each link,
in processing order, adds the binding of the callee value under its
inner name and of the operand's result under its outer name. -/
def chainEnv (E : Env) : List ChainLink → Env
  | [] => E
  | l :: rest =>
    chainEnv ((l.outerName, l.ret) :: (l.innerName, Value.native true l.tag l.ret) :: E) rest

/-- Well-formedness of a chain run: each link's tag is bound, in the
environment current when the link runs, to a CPS-convention native
returning the link's result; tags and inner names avoid the
evaluator's special identifier "undefined"; and the names a link binds
do not shadow the tags of later links. -/
def chainWF (E : Env) : List ChainLink → Prop
  | [] => True
  | l :: rest =>
    assocV E l.tag = some (Value.native true l.tag l.ret) ∧
    l.tag ≠ "undefined" ∧ l.innerName ≠ "undefined" ∧
    chainWF ((l.outerName, l.ret) :: (l.innerName, Value.native true l.tag l.ret) :: E) rest

/-- The observations a chain emits: each tag once, in order. -/
def chainProbes (links : List ChainLink) : List LEnt :=
  links.map (fun l => (l.tag, []))

/-- An operand invoking the external function named t, with no
arguments. -/
def mkNativeCall (t : String) : Node :=
  Node.callExpression (Node.identifier t) []

/-- The gensym counter after compiling one sequencing level per
remaining operand: one fresh name at the start of each level, plus one
inside each operand's compound application (allocated after the rest
of the chain has been compiled, following JS argument order). -/
def seqEnd : List (String × Value) → Nat → Nat
  | [], c => c
  | _ :: rest, c => seqEnd rest (c + 1) + 1

/-- The links the compiler produces for native-call operands starting
at gensym counter c. -/
def seqLinks : List (String × Value) → Nat → List ChainLink
  | [], _ => []
  | (t, r) :: rest, c =>
    ⟨t, gname "s" c, gname "s" (seqEnd rest (c + 1)), r⟩ :: seqLinks rest (c + 1)

/-- Whether an EM computation only appends to the log it is given:
running it on lg produces what running it on the empty log produces,
prefixed by lg. -/
def LogNat {α : Type} (m : EM α) : Prop :=
  ∀ lg, m lg = (m []).map (fun p => (p.1, lg ++ p.2))

-- ===== Theorems =====

@[simp]
theorem CM_bind_apply {α β : Type} (m : CM α) (f : α → CM β) (n : Nat) :
    (m >>= f) n =
      match m n with
      | Res.ok a n' => f a n'
      | Res.err e => Res.err e
      | Res.out => Res.out := rfl

@[simp]
theorem CM_pure_apply {α : Type} (a : α) (n : Nat) : (pure a : CM α) n = Res.ok a n := rfl

@[simp]
theorem gensym_apply (name : String) (n : Nat) :
    makeGensymVariable name n = Res.ok (Node.identifier (gname name n)) (n + 1) := rfl

theorem getField_setKey (d : List (String × PVal)) (k q : String) (v : PVal) :
    getField (setKey d k v) q = if k = q then some v else getField d q := by
  induction d with
  | nil => simp [setKey, getField]
  | cons hd tl ih =>
    obtain ⟨a, b⟩ := hd
    by_cases hak : a = k
    · subst hak
      simp only [setKey, if_pos rfl, getField]
      by_cases hq : a = q <;> simp [hq]
    · simp only [setKey, if_neg hak, getField, ih]
      by_cases haq : a = q
      · subst haq
        have hk : ¬ k = a := fun hka => hak hka.symm
        simp [hk]
      · simp [haq]

theorem getField_foldl_notMem (kvs : List (String × PVal)) (d : List (String × PVal))
    (k : String) (h : k ∉ kvs.map Prod.fst) :
    getField (kvs.foldl (fun acc kv => setKey acc kv.1 kv.2) d) k = getField d k := by
  induction kvs generalizing d with
  | nil => rfl
  | cons hd tl ih =>
    obtain ⟨a, b⟩ := hd
    simp only [List.map, List.mem_cons, not_or] at h
    simp only [List.foldl]
    rw [ih (setKey d a b) h.2, getField_setKey, if_neg (fun hak => h.1 hak.symm)]

theorem getField_foldl_mem (kvs : List (String × PVal)) (d : List (String × PVal))
    (k : String) (hnd : (kvs.map Prod.fst).Nodup) (hmem : k ∈ kvs.map Prod.fst) :
    getField (kvs.foldl (fun acc kv => setKey acc kv.1 kv.2) d) k = getField kvs k := by
  induction kvs generalizing d with
  | nil => simp at hmem
  | cons hd tl ih =>
    obtain ⟨a, b⟩ := hd
    simp only [List.map, List.nodup_cons] at hnd
    simp only [List.foldl]
    by_cases hak : a = k
    · subst hak
      rw [getField_foldl_notMem tl (setKey d a b) a hnd.1, getField_setKey, if_pos rfl]
      simp [getField]
    · have hmem' : k ∈ tl.map Prod.fst := by
        simp only [List.map, List.mem_cons] at hmem
        rcases hmem with h1 | h2
        · exact absurd h1.symm hak
        · exact h2
      rw [ih (setKey d a b) hnd.2 hmem']
      simp [getField, hak]

theorem pGet_mergeOpts_override (so : PVal) (gs : List (String × PVal)) (k : String)
    (hnd : (gs.map Prod.fst).Nodup) (hmem : k ∈ gs.map Prod.fst) :
    pGet (mergeOpts so (PVal.obj gs)) k = pGet (PVal.obj gs) k := by
  simp only [mergeOpts, extendOwnP, keyVals, pGet]
  rw [getField_foldl_mem gs _ k hnd hmem]

theorem pGet_extendOwn_default (base : List (String × PVal)) (src : PVal) (k : String)
    (hk : k ∉ (keyVals src).map Prod.fst) :
    pGet (extendOwnP (PVal.obj base) src) k = (getField base k).getD PVal.undef := by
  simp only [extendOwnP, pGet]
  rw [getField_foldl_notMem _ _ _ hk]

/-- Claim C9: the kernel returned by tap(fn) invokes fn on the trace
(threading its effect through the store and discarding its result) and
then invokes the continuation with the very same, unaltered trace
value that it received. -/
theorem claim9_tap_forwards_unaltered_trace {T S R α : Type} (fn : T → S → α × S)
    (k : Kont T S R) (trace : T) (options : PVal) (s : S) :
    tap fn k trace options s = k trace (fn trace s).2 := rfl

/-- Claim C7: sequence(A, B, C) is built as the right-associative fold
sequence(A, sequence(B, C)) — the two are equal — and the resulting
kernel runs A, then B on A's resulting trace, then C on B's resulting
trace, preserving left-to-right execution order. -/
theorem claim7_sequence_right_assoc_fold {T S R : Type} (A B C : Kern T S R) :
    sequence [A, B, C] = some (sequence2 A (sequence2 B C)) ∧
    sequence [B, C] = some (sequence2 B C) ∧
    (∀ (k : Kont T S R) (trace1 : T) (options : PVal) (s : S),
      sequence2 A (sequence2 B C) k trace1 options s =
        A (fun trace2 s2 =>
            B (fun trace3 s3 => C k trace3 PVal.undef s3) trace2 PVal.undef s2)
          trace1 PVal.undef s) :=
  ⟨rfl, rfl, fun _ _ _ _ => rfl⟩

/-- Claim C10 (implicit): kernels produced by tap and by the pairwise
sequence combinator discard any options argument they are invoked
with, and invoke their wrapped sub-kernels with only (continuation,
trace) — the sub-kernels' options parameter receives undefined — while
the registered sequence kernel's iteration invokes every stored stage
with the full options object it received. -/
theorem claim10_options_only_sequenceKernel :
    (∀ (T S R α : Type) (fn : T → S → α × S) (k : Kont T S R) (trace : T)
      (o o' : PVal) (s : S), tap fn k trace o s = tap fn k trace o' s) ∧
    (∀ (T S R : Type) (k0 k1 : Kern T S R) (k : Kont T S R) (trace : T)
      (o o' : PVal) (s : S), sequence2 k0 k1 k trace o s = sequence2 k0 k1 k trace o' s) ∧
    (∀ (T S R : Type) (k0 k1 : Kern T S R) (k : Kont T S R) (trace : T)
      (o : PVal) (s : S),
      sequence2 k0 k1 k trace o s =
        k0 (fun trace2 s2 => k1 k trace2 PVal.undef s2) trace PVal.undef s) ∧
    (∀ (T S R : Type) (app : PVal → Kont T S R → T → PVal → S → Option R)
      (cont : Kont T S R) (trace : T) (x : PVal) (options : PVal) (s : S),
      seqIterF app [x] cont trace options s = app x cont trace options s) ∧
    (∀ (T S R : Type) (app : PVal → Kont T S R → T → PVal → S → Option R)
      (cont : Kont T S R) (trace : T) (x y : PVal) (rest : List PVal)
      (options : PVal) (s : S),
      seqIterF app (x :: y :: rest) cont trace options s =
        app x (fun trace2 s2 => seqIterF app (y :: rest) cont trace2 options s2)
          trace options s) ∧
    (∀ (T S R : Type) (MHK HMCK : Kern T S R) (fuel : Nat) (cont : Kont T S R)
      (trace : T) (options : PVal) (s : S),
      sequenceKernelF MHK HMCK fuel cont trace options s =
        match pGet options "kernels" with
        | PVal.arr ks => seqIterF (applyPK MHK HMCK fuel) ks cont trace options s
        | _ => none) :=
  ⟨fun _ _ _ _ _ _ _ _ _ _ => rfl,
   fun _ _ _ _ _ _ _ _ _ _ => rfl,
   fun _ _ _ _ _ _ _ _ _ => rfl,
   fun _ _ _ _ _ _ _ _ _ => rfl,
   fun _ _ _ _ _ _ _ _ _ _ _ => rfl,
   fun _ _ _ _ _ _ _ _ _ _ => rfl⟩

/-- Claim C2 counterexample: invoking the composed HMC kernel with
outer options binding discreteOnly to false, the MH stage receives
discreteOnly = false — the outer options override the forced true, so
the MH stage does not receive discreteOnly = true regardless of the
outer options, contrary to the claim. -/
theorem claim2_counterexample :
    HMCwithMHKernel (T := Unit) (S := Unit) (R := PVal)
        (fun cont tr _o s => cont tr s)
        (fun _cont _tr o _s => some (pGet o "discreteOnly"))
        (fun _ _ => none) () (PVal.obj [("discreteOnly", PVal.bool false)]) () =
      some (PVal.bool false) ∧ PVal.bool false ≠ PVal.bool true := by
  refine ⟨rfl, ?_⟩
  intro h
  injection h with hb
  exact absurd hb (by decide)

/-- Claim C2 amended: HMCwithMHKernel first runs the HMC kernel and
passes the resulting trace to the MH kernel, whose options are the
outer options copied over a fresh object carrying the default
discreteOnly = true; whenever the outer options do not themselves
carry a discreteOnly key, the MH stage receives discreteOnly = true. -/
theorem claim2_amended_hmc_mh_discrete_default {T S R : Type}
    (hmc mh : Kern T S R) (cont : Kont T S R) (oldTrace : T) (options : PVal) (s : S)
    (h : "discreteOnly" ∉ (keyVals options).map Prod.fst) :
    HMCwithMHKernel hmc mh cont oldTrace options s =
      hmc (fun trace s2 =>
            mh cont trace
              (extendOwnP (PVal.obj [("discreteOnly", PVal.bool true)]) options) s2)
        oldTrace options s ∧
    pGet (extendOwnP (PVal.obj [("discreteOnly", PVal.bool true)]) options)
      "discreteOnly" = PVal.bool true := by
  refine ⟨rfl, ?_⟩
  rw [pGet_extendOwn_default _ _ _ h]
  rfl

/-- Claim C2 witness: at outer options carrying only an exitFactor
key, the merged options hand discreteOnly = true to the MH stage. -/
theorem claim2_witness :
    pGet (extendOwnP (PVal.obj [("discreteOnly", PVal.bool true)])
        (PVal.obj [("exitFactor", PVal.num 3)])) "discreteOnly" = PVal.bool true :=
  (claim2_amended_hmc_mh_discrete_default (T := Unit) (S := Unit) (R := Unit)
    (fun c t _o s => c t s) (fun c t _o s => c t s) (fun _ _ => none) ()
    (PVal.obj [("exitFactor", PVal.num 3)]) () (by decide)).2

end Webppl

namespace Webppl

/-- Claim C4: every options value recognized by parseOptions as a
kernel reference (a registered kernel name, or a single-key mapping
whose key is a registered kernel name) compiles to the dispatch
closure over its recursively parsed static options; applying that
closure to (cont, trace, extraOptions) dispatches to the named
registered kernel with the static options merged with extraOptions,
and on key conflict dynamically supplied extraOptions keys override
statically declared ones. -/
theorem claim4_parseOptions_dispatch {T S R : Type} (MHK HMCK : Kern T S R)
    (v : JVal) (pfuel : Nat) (h : isKernelOption v = true) :
    parseOptionsF (pfuel + 1) v =
      (parseOptionsF pfuel (getKernelOptions v)).map (PVal.closure (getKernelName v)) ∧
    (∀ gfuel : Nat,
      ∃ kf, kernelsTable MHK HMCK gfuel (getKernelName v) = some kf ∧
        ∀ (so : PVal) (cont : Kont T S R) (trace : T) (extra : PVal) (s : S),
          applyPK MHK HMCK (gfuel + 1) (PVal.closure (getKernelName v) so) cont trace extra s =
            kf cont trace (mergeOpts so extra) s) ∧
    (∀ (so : PVal) (gs : List (String × PVal)) (key : String),
      (gs.map Prod.fst).Nodup → key ∈ gs.map Prod.fst →
      pGet (mergeOpts so (PVal.obj gs)) key = pGet (PVal.obj gs) key) := by
  refine ⟨?_, ?_, fun so gs key hnd hmem => pGet_mergeOpts_override so gs key hnd hmem⟩
  · simp [parseOptionsF, h]
  · have hname : getKernelName v ∈ kernelNames := by
      match v with
      | JVal.str s => simpa [isKernelOption, getKernelName] using h
      | JVal.obj [(k, sub)] => simpa [isKernelOption, getKernelName] using h
      | JVal.undef => simp [isKernelOption] at h
      | JVal.bool _ => simp [isKernelOption] at h
      | JVal.num _ => simp [isKernelOption] at h
      | JVal.arr _ => simp [isKernelOption] at h
      | JVal.obj [] => simp [isKernelOption] at h
      | JVal.obj (a :: b :: rest) => simp [isKernelOption] at h
    intro gfuel
    simp only [kernelNames, List.mem_cons, List.not_mem_nil, or_false] at hname
    rcases hname with hE | hE | hE | hE <;> rw [hE]
    · exact ⟨MHK, rfl, fun _ _ _ _ _ => rfl⟩
    · exact ⟨HMCwithMHKernel HMCK MHK, rfl, fun _ _ _ _ _ => rfl⟩
    · exact ⟨HMCK, rfl, fun _ _ _ _ _ => rfl⟩
    · exact ⟨_, rfl, fun _ _ _ _ _ => rfl⟩

/-- Claim C4 witness: parseOptions(\x7bHMC: \x7bsteps: 10\x7d\x7d) compiles to
the dispatch closure for the composed HMC+MH kernel, and invoking it
with extra options \x7bsteps: 20\x7d merges so that steps = 20 wins. -/
theorem claim4_witness :
    parseOptionsF 4 (JVal.obj [("HMC", JVal.obj [("steps", JVal.num 10)])]) =
      some (PVal.closure "HMC" (PVal.obj [("steps", PVal.num 10)])) ∧
    pGet (mergeOpts (PVal.obj [("steps", PVal.num 10)])
      (PVal.obj [("steps", PVal.num 20)])) "steps" = PVal.num 20 := by
  have hc := claim4_parseOptions_dispatch (T := Unit) (S := Unit) (R := Unit)
    (fun c t _o s => c t s) (fun c t _o s => c t s)
    (JVal.obj [("HMC", JVal.obj [("steps", JVal.num 10)])]) 3 (by decide)
  constructor
  · rw [hc.1]; rfl
  · rw [hc.2.2 (PVal.obj [("steps", PVal.num 10)]) [("steps", PVal.num 20)] "steps"
      (by simp) (by simp)]
    rfl

/-- Claim C8 counterexample: a declaration with two declarators makes
cps throw the assert.equal AssertionError whose payload (actual 2,
expected 1) carries no node kind — contrary to the claim that the
error reports the offending node kind. -/
theorem claim8_counterexample :
    cpsF 5 (Node.variableDeclaration
        [(Node.identifier "x", Node.literal (LitVal.num 1)),
         (Node.identifier "y", Node.literal (LitVal.num 2))])
      (Node.identifier "done") 0 = Res.err (Cerr.assertEqualNat 2 1) ∧
    errKind (Cerr.assertEqualNat 2 1) = none :=
  ⟨rfl, rfl⟩

/-- Claim C8 amended: compiling a node of unsupported kind throws,
synchronously and with no output, an error reporting that kind;
compiling a declaration whose declarator count is not one throws,
synchronously and with no output, the assert.equal error carrying the
actual and expected counts (and no node kind). -/
theorem claim8_translation_errors :
    (∀ (fuel : Nat) (kind : String) (cont : Node) (n : Nat),
      cpsF (fuel + 1) (Node.other kind) cont n = Res.err (Cerr.unknownNode "cps" kind) ∧
      errKind (Cerr.unknownNode "cps" kind) = some kind) ∧
    (∀ (fuel : Nat) (decls : List (Node × Node)) (cont : Node) (n : Nat),
      decls.length ≠ 1 →
      cpsF (fuel + 1) (Node.variableDeclaration decls) cont n =
        Res.err (Cerr.assertEqualNat decls.length 1)) := by
  refine ⟨fun _ _ _ _ => ⟨rfl, rfl⟩, fun fuel decls cont n h => ?_⟩
  match decls with
  | [] => rfl
  | [d] => simp at h
  | d1 :: d2 :: rest => rfl

/-- Claim C8 witness: a declarator-free declaration statement throws
the assert.equal error with actual count 0. -/
theorem claim8_witness :
    cpsF 3 (Node.variableDeclaration []) (Node.identifier "done") 0 =
      Res.err (Cerr.assertEqualNat 0 1) :=
  claim8_translation_errors.2 2 [] (Node.identifier "done") 0 (by decide)

/-- Claim C6: a compiled function expression's parameter list is the
freshly generated continuation prepended to the original parameters,
its body compiled against that continuation after re-binding the
reserved return continuation; a call whose callee is not a member
expression is compiled as a compound application — operator and
operands sequenced together — whose final emitted call has the bound
callee name in operator position and the threaded continuation
prepended to the bound argument names. -/
theorem claim6_calling_convention :
    (∀ (fuel : Nat) (params : List Node) (body : Node) (n n' : Nat)
      (bodyNode bodyStmt : Node),
      cpsF fuel body (Node.identifier (gname "k" n)) (n + 1) = Res.ok bodyNode n' →
      convertToStatement bodyNode = Except.ok bodyStmt →
      cpsAtomicF (fuel + 1) (Node.functionExpression params body) n =
        Res.ok (Node.functionExpression
          (Node.identifier (gname "k" n) :: params)
          (Node.blockStatement
            [Node.variableDeclaration [(returnContIdentifier, Node.identifier (gname "k" n))],
             bodyStmt])) n') ∧
    (∀ (fuel : Nat) (callee : Node) (args : List Node) (cont : Node),
      isMemberNode callee = false →
      cpsApplicationF (fuel + 1) callee args cont =
        cpsSequenceF fuel SeqKind.compApp cont (callee :: args) []) ∧
    (∀ (fuel : Nat) (cont v0 : Node) (rest : List Node) (n : Nat),
      cpsSeqFinal (fuel + 1) SeqKind.compApp cont [] (v0 :: rest) n =
        Res.ok (Node.callExpression v0 (cont :: rest)) n) := by
  refine ⟨?_, ?_, fun _ _ _ _ _ => rfl⟩
  · intro fuel params body n n' bodyNode bodyStmt h1 h2
    simp [cpsAtomicF, CM_bind_apply, gensym_apply, h1, h2, liftE, buildFunc]
  · intro fuel callee args cont h
    cases callee <;> simp_all [cpsApplicationF, isMemberNode]

/-- Claim C6 witness: compiling function (x) \x7b x \x7d prepends the fresh
continuation _k0, and a compound call with callee f goes through the
operator-and-operands sequencing. -/
theorem claim6_witness :
    cpsAtomicF 6 (Node.functionExpression [Node.identifier "x"] (Node.identifier "x")) 0 =
      Res.ok (Node.functionExpression
        [Node.identifier (gname "k" 0), Node.identifier "x"]
        (Node.blockStatement
          [Node.variableDeclaration [(returnContIdentifier, Node.identifier (gname "k" 0))],
           Node.expressionStatement
             (Node.callExpression (Node.identifier (gname "k" 0)) [Node.identifier "x"])])) 1 ∧
    cpsApplicationF 6 (Node.identifier "f") [Node.identifier "y"] (Node.identifier "done") =
      cpsSequenceF 5 SeqKind.compApp (Node.identifier "done")
        [Node.identifier "f", Node.identifier "y"] [] := by
  constructor
  · exact claim6_calling_convention.1 5 [Node.identifier "x"] (Node.identifier "x")
      0 1 _ _ rfl rfl
  · exact claim6_calling_convention.2.1 5 (Node.identifier "f") [Node.identifier "y"]
      (Node.identifier "done") rfl

/-- Claim C3 counterexample: compiling if (false) \x7b 1 \x7d against the
continuation done, the compiled output's alternate branch invokes the
original continuation expression done directly — a duplicated
occurrence of the continuation — and not the single fresh binding
_cont0 that the consequent branch uses, contrary to the claim. -/
theorem claim3_counterexample :
    cpsF 20 (Node.ifStatement (Node.literal (LitVal.bool false))
        (Node.blockStatement [Node.expressionStatement (Node.literal (LitVal.num 1))])
        none)
      (Node.identifier "done") 0 =
      Res.ok (Node.callExpression
        (Node.functionExpression [Node.identifier "_cont0"]
          (Node.blockStatement
            [Node.expressionStatement
              (Node.callExpression
                (Node.functionExpression [Node.identifier "_test1"]
                  (Node.blockStatement
                    [Node.ifStatement (Node.identifier "_test1")
                      (Node.expressionStatement
                        (Node.callExpression (Node.identifier "_cont0")
                          [Node.literal (LitVal.num 1)]))
                      (some (Node.expressionStatement
                        (Node.callExpression (Node.identifier "done")
                          [Node.identifier "undefined"])))]))
                [Node.literal (LitVal.bool false)])]))
        [Node.identifier "done"]) 2 ∧
    Node.expressionStatement
        (Node.callExpression (Node.identifier "done") [Node.identifier "undefined"]) ≠
      Node.expressionStatement
        (Node.callExpression (Node.identifier "_cont0") [Node.identifier "undefined"]) := by
  refine ⟨rfl, ?_⟩
  intro h
  injection h with h1
  injection h1 with h2 h3
  injection h2 with h4
  exact absurd h4 (by decide)

/-- Claim C3 amended: for an if-statement with no else branch, the
transformer still binds the continuation under a fresh name, but the
emitted alternate branch invokes the original continuation expression
cont with undefined (a duplicated occurrence of cont; only the
consequent is compiled against the fresh binding); consequently
cps("if (false) \x7b 1 \x7d", done) invokes done(undefined). -/
theorem claim3_amended_if_alternate :
    (∀ (fuel : Nat) (test consequent cont : Node) (n : Nat),
      cpsIfF (fuel + 1) test consequent none cont n =
        (do
          let contName ← makeGensymVariable "cont"
          let testName ← makeGensymVariable "test"
          let consequentNode ← cpsF fuel consequent contName
          let cStmt ← liftE (convertToStatement consequentNode)
          let aStmt ← liftE (convertToStatement
            (Node.callExpression cont [Node.identifier "undefined"]))
          let innerFunc ← liftE (buildFunc [testName]
            (Node.ifStatement testName cStmt (some aStmt)))
          let testNode ← cpsF fuel test innerFunc
          let outerFunc ← liftE (buildFunc [contName] testNode)
          pure (Node.callExpression outerFunc [cont])) n) ∧
    runCompiled 50 100
        (Node.program [Node.ifStatement (Node.literal (LitVal.bool false))
          (Node.blockStatement [Node.expressionStatement (Node.literal (LitVal.num 1))])
          none])
        "done" [("done", Value.native false "done" Value.undef)] =
      some (Value.undef, [("done", [Value.undef])]) :=
  ⟨fun _ _ _ _ _ => rfl, rfl⟩

end Webppl

namespace Webppl

/-- Claim C1 counterexample: for the supported node kind
ReturnStatement, the compiled tree never invokes the supplied
continuation: cps(return 3, done) compiles 3 against the reserved
return continuation _return, producing a tree that does not mention
done; running it invokes the function bound to _return with 3 and
leaves no invocation of done in the observation log. -/
theorem claim1_counterexample :
    cpsF 5 (Node.returnStatement (Node.literal (LitVal.num 3))) (Node.identifier "done") 0 =
      Res.ok (Node.callExpression (Node.identifier "_return")
        [Node.literal (LitVal.num 3)]) 0 ∧
    evalF 20 [("_return", Value.native false "ret" Value.undef),
              ("done", Value.native false "done" Value.undef)]
        (Node.callExpression (Node.identifier "_return") [Node.literal (LitVal.num 3)]) [] =
      some (Value.undef, [("ret", [Value.num 3])]) ∧
    "done" ∉ ([("ret", [Value.num 3])] : List LEnt).map (fun e => e.1) := by
  refine ⟨rfl, rfl, ?_⟩
  intro h
  simp only [List.map, List.mem_cons, List.not_mem_nil, or_false] at h
  exact absurd h (by decide)

/-- Claim C5 counterexample: in a statement sequence, an operand after
a return statement is not evaluated at all — compiling the sequence
[return 1; probe()] discards the compiled probe() entirely (a return
compiles against the reserved return continuation and drops the
continuation carrying the rest of the sequence), and running the
compiled program var f = function() \x7b return 1; probe(); \x7d; f()
completes, delivering 1 to done, with no probe invocation in the log. -/
theorem claim5_counterexample :
    cpsSequenceF 20 SeqKind.block (Node.identifier "done")
        [Node.returnStatement (Node.literal (LitVal.num 1)),
         Node.expressionStatement (Node.callExpression (Node.identifier "probe") [])] [] 0 =
      Res.ok (Node.callExpression (Node.identifier "_return")
        [Node.literal (LitVal.num 1)]) 2 ∧
    runCompiled 50 100
        (Node.program
          [Node.variableDeclaration [(Node.identifier "f",
            Node.functionExpression []
              (Node.blockStatement
                [Node.returnStatement (Node.literal (LitVal.num 1)),
                 Node.expressionStatement
                   (Node.callExpression (Node.identifier "probe") [])]))],
           Node.expressionStatement (Node.callExpression (Node.identifier "f") [])])
        "done"
        [("done", Value.native false "done" Value.undef),
         ("probe", Value.native true "probe" (Value.num 9))] =
      some (Value.undef, [("done", [Value.num 1])]) ∧
    "probe" ∉ ([("done", [Value.num 1])] : List LEnt).map (fun e => e.1) := by
  refine ⟨rfl, rfl, ?_⟩
  intro h
  simp only [List.map, List.mem_cons, List.not_mem_nil, or_false] at h
  exact absurd h (by decide)

end Webppl

namespace Webppl

@[simp]
theorem EM_bind_apply {α β : Type} (m : EM α) (f : α → EM β) (lg : List LEnt) :
    (m >>= f) lg =
      match m lg with
      | some (a, lg') => f a lg'
      | none => none := rfl

@[simp]
theorem EM_pure_apply {α : Type} (a : α) (lg : List LEnt) :
    (pure a : EM α) lg = some (a, lg) := rfl

theorem logNat_pure {α : Type} (a : α) : LogNat (pure a : EM α) := by
  intro lg; simp [LogNat]

theorem logNat_failE {α : Type} : LogNat (failE : EM α) := by
  intro lg; rfl

theorem logNat_liftO {α : Type} (o : Option α) : LogNat (liftO o) := by
  cases o with
  | none => intro lg; rfl
  | some a => intro lg; simp [liftO]

theorem logNat_emit (e : LEnt) : LogNat (emit e) := by
  intro lg; simp [emit]

theorem logNat_ite {α : Type} {c : Prop} [Decidable c] {A B : EM α}
    (hA : LogNat A) (hB : LogNat B) : LogNat (if c then A else B) := by
  by_cases h : c
  · simpa [h] using hA
  · simpa [h] using hB

theorem logNat_bind {α β : Type} {m : EM α} {f : α → EM β}
    (hm : LogNat m) (hf : ∀ a, LogNat (f a)) : LogNat (m >>= f) := by
  intro lg
  simp only [EM_bind_apply]
  rw [hm lg]
  cases hc : m [] with
  | none => simp
  | some p =>
    obtain ⟨a, δ⟩ := p
    simp only [Option.map_some']
    rw [hf a (lg ++ δ), hf a δ]
    cases hfc : f a [] with
    | none => simp
    | some q => simp [List.append_assoc]

theorem eval_logNat :
    ∀ fuel : Nat,
      (∀ (env : Env) (node : Node), LogNat (evalF fuel env node)) ∧
      (∀ (env : Env) (ns : List Node), LogNat (evalListF fuel env ns)) ∧
      (∀ (env : Env) (ps : List (String × Node × Node)), LogNat (evalFieldsF fuel env ps)) ∧
      (∀ (env : Env) (sts : List Node) (last : Value), LogNat (evalStmtsF fuel env sts last)) ∧
      (∀ (v : Value) (args : List Value), LogNat (applyV fuel v args)) := by
  intro fuel
  induction fuel with
  | zero =>
    exact ⟨fun _ _ => logNat_failE, fun _ _ => logNat_failE, fun _ _ => logNat_failE,
      fun _ _ _ => logNat_failE, fun _ _ => logNat_failE⟩
  | succ fuel ih =>
    obtain ⟨ihE, ihL, ihF, ihS, ihA⟩ := ih
    refine ⟨?_, ?_, ?_, ?_, ?_⟩
    · intro env node
      cases node with
      | program body => exact ihS env body Value.undef
      | blockStatement body => exact ihS env body Value.undef
      | expressionStatement e => exact ihE env e
      | returnStatement a => exact logNat_failE
      | emptyStatement => exact logNat_pure _
      | identifier name =>
        exact logNat_ite (logNat_pure _) (logNat_liftO _)
      | literal v => exact logNat_pure _
      | functionExpression params body =>
        exact logNat_bind (logNat_liftO _) (fun _ => logNat_pure _)
      | callExpression callee args =>
        exact logNat_bind (ihE env callee)
          (fun f => logNat_bind (ihL env args) (fun avs => ihA f avs))
      | ifStatement test cons alt =>
        refine logNat_bind (ihE env test) (fun t => ?_)
        by_cases h : truthy t = true
        · simp only [h, if_true]; exact ihE env cons
        · simp only [h, if_false, Bool.false_eq_true]
          cases alt with
          | some a => exact ihE env a
          | none => exact logNat_pure _
      | conditionalExpression test cons alt =>
        refine logNat_bind (ihE env test) (fun t => ?_)
        by_cases h : truthy t = true
        · simp only [h, if_true]; exact ihE env cons
        · simp only [h, if_false, Bool.false_eq_true]; exact ihE env alt
      | arrayExpression els =>
        exact logNat_bind (ihL env els) (fun _ => logNat_pure _)
      | objectExpression props =>
        exact logNat_bind (ihF env props) (fun _ => logNat_pure _)
      | memberExpression obj prop computed =>
        refine logNat_bind (ihE env obj) (fun o => ?_)
        cases computed with
        | true =>
          refine logNat_bind (ihE env prop) (fun p => ?_)
          cases o <;> cases p <;>
            first
            | exact logNat_pure _
            | exact logNat_failE
            | exact logNat_ite (logNat_pure _) logNat_failE
        | false =>
          cases prop <;> cases o <;>
            first
            | exact logNat_pure _
            | exact logNat_failE
      | unaryExpression op arg pfx =>
        exact logNat_bind (ihE env arg) (fun _ => logNat_liftO _)
      | binaryExpression op l r =>
        exact logNat_bind (ihE env l)
          (fun _ => logNat_bind (ihE env r) (fun _ => logNat_liftO _))
      | variableDeclaration decls => exact logNat_failE
      | other kind => exact logNat_failE
    · intro env ns
      cases ns with
      | nil => exact logNat_pure _
      | cons e rest =>
        exact logNat_bind (ihE env e)
          (fun v => logNat_bind (ihL env rest) (fun vs => logNat_pure _))
    · intro env ps
      cases ps with
      | nil => exact logNat_pure _
      | cons p rest =>
        obtain ⟨kind, key, value⟩ := p
        exact logNat_bind (logNat_liftO _)
          (fun k => logNat_bind (ihE env value)
            (fun v => logNat_bind (ihF env rest) (fun fs => logNat_pure _)))
    · intro env sts last
      cases sts with
      | nil => exact logNat_pure _
      | cons st rest =>
        cases st with
        | variableDeclaration decls =>
          cases decls with
          | nil => exact logNat_failE
          | cons d ds =>
            obtain ⟨dId, dInit⟩ := d
            cases ds with
            | cons d2 ds2 => cases dId <;> exact logNat_failE
            | nil =>
              cases dId <;>
                first
                | exact logNat_failE
                | exact logNat_bind (ihE env _) (fun v => ihS _ rest Value.undef)
        | program body => exact logNat_bind (ihE env _) (fun v => ihS env rest v)
        | blockStatement body => exact logNat_bind (ihE env _) (fun v => ihS env rest v)
        | expressionStatement e => exact logNat_bind (ihE env _) (fun v => ihS env rest v)
        | returnStatement a => exact logNat_bind (ihE env _) (fun v => ihS env rest v)
        | emptyStatement => exact logNat_bind (ihE env _) (fun v => ihS env rest v)
        | identifier name => exact logNat_bind (ihE env _) (fun v => ihS env rest v)
        | literal v => exact logNat_bind (ihE env _) (fun v => ihS env rest v)
        | functionExpression params body =>
          exact logNat_bind (ihE env _) (fun v => ihS env rest v)
        | callExpression callee args =>
          exact logNat_bind (ihE env _) (fun v => ihS env rest v)
        | ifStatement test cons alt =>
          exact logNat_bind (ihE env _) (fun v => ihS env rest v)
        | conditionalExpression test cons alt =>
          exact logNat_bind (ihE env _) (fun v => ihS env rest v)
        | arrayExpression els => exact logNat_bind (ihE env _) (fun v => ihS env rest v)
        | objectExpression props => exact logNat_bind (ihE env _) (fun v => ihS env rest v)
        | memberExpression o p cmp => exact logNat_bind (ihE env _) (fun v => ihS env rest v)
        | unaryExpression op arg pfx => exact logNat_bind (ihE env _) (fun v => ihS env rest v)
        | binaryExpression op l r => exact logNat_bind (ihE env _) (fun v => ihS env rest v)
        | other kind => exact logNat_bind (ihE env _) (fun v => ihS env rest v)
    · intro v args
      cases v with
      | closure params body env =>
        exact logNat_bind (ihE _ body) (fun _ => logNat_pure _)
      | native isCps tag ret =>
        cases isCps with
        | true =>
          cases args with
          | nil => exact logNat_failE
          | cons k rest =>
            exact logNat_bind (logNat_emit _) (fun _ => ihA k [ret])
        | false => exact logNat_bind (logNat_emit _) (fun _ => logNat_pure _)
      | undef => exact logNat_failE
      | nul => exact logNat_failE
      | num n => exact logNat_failE
      | bool b => exact logNat_failE
      | str s => exact logNat_failE
      | varr xs => exact logNat_failE
      | vobj fs => exact logNat_failE

end Webppl

namespace Webppl

theorem buildFunc_chainNode (x f : Node) (as : List Node) (links : List ChainLink) :
    buildFunc [x] (chainNode (Node.callExpression f as) links) =
      Except.ok (Node.functionExpression [x]
        (Node.blockStatement
          [Node.expressionStatement (chainNode (Node.callExpression f as) links)])) := by
  cases links <;> rfl

theorem chainNode_step (F : Nat) (E : Env) (l : ChainLink) (finalB : Node)
    (rest : List ChainLink) (lg : List LEnt)
    (hlook : assocV E l.tag = some (Value.native true l.tag l.ret))
    (htag : l.tag ≠ "undefined") (hinner : l.innerName ≠ "undefined") :
    evalF (F + 11) E (chainNode finalB (l :: rest)) lg =
      match evalF F ((l.outerName, l.ret) :: (l.innerName, Value.native true l.tag l.ret) :: E)
          (chainNode finalB rest) (lg ++ [(l.tag, [])]) with
      | some p => some (Value.undef, p.2)
      | none => none := by
  simp [chainNode, evalF, evalListF, evalStmtsF, applyV, liftO, emit, paramNames, bindParams,
    htag, hinner, hlook, assocV]
  cases hres : evalF F ((l.outerName, l.ret) :: (l.innerName, Value.native true l.tag l.ret) :: E)
      (chainNode finalB rest) (lg ++ [(l.tag, [])]) with
  | none => rfl
  | some p => obtain ⟨a, b⟩ := p; rfl

theorem chainNode_eval (finalB : Node) (efuel : Nat) (v : Value) (log' : List LEnt) :
    ∀ (links : List ChainLink) (E : Env),
      chainWF E links →
      evalF efuel (chainEnv E links) finalB [] = some (v, log') →
      ∀ lg : List LEnt, ∃ w,
        evalF (efuel + 11 * links.length) E (chainNode finalB links) lg =
          some (w, lg ++ chainProbes links ++ log') := by
  intro links
  induction links with
  | nil =>
    intro E _ hfin lg
    refine ⟨v, ?_⟩
    have hnat := ((eval_logNat efuel).1 E finalB) lg
    simp only [chainEnv] at hfin
    simp only [chainNode, chainProbes, List.map_nil, List.length_nil, Nat.mul_zero,
      Nat.add_zero, List.nil_append, List.append_nil]
    rw [hnat, hfin]
    rfl
  | cons l rest ih =>
    intro E hwf hfin lg
    obtain ⟨hlook, htag, hinner, hwf'⟩ := hwf
    have hfuel : efuel + 11 * (l :: rest).length = (efuel + 11 * rest.length) + 11 := by
      simp [List.length_cons]; ring
    rw [hfuel, chainNode_step _ _ _ _ _ _ hlook htag hinner]
    obtain ⟨w', hw⟩ := ih
      ((l.outerName, l.ret) :: (l.innerName, Value.native true l.tag l.ret) :: E)
      hwf' hfin (lg ++ [(l.tag, [])])
    rw [hw]
    refine ⟨Value.undef, ?_⟩
    simp [chainProbes]

set_option maxRecDepth 4000 in
theorem cpsSequence_nativeCalls :
    ∀ (tvs : List (String × Value)) (fuel : Nat), tvs.length + 6 ≤ fuel →
      ∀ (cont : Node) (c : Nat) (vars : List Node),
        cpsSequenceF fuel SeqKind.arrayK cont (tvs.map (fun tv => mkNativeCall tv.1)) vars c =
          Res.ok (chainNode
            (Node.callExpression cont
              [Node.arrayExpression
                (vars ++ (seqLinks tvs c).map (fun l => Node.identifier l.outerName))])
            (seqLinks tvs c)) (seqEnd tvs c) := by
  intro tvs
  induction tvs with
  | nil =>
    intro fuel hb cont c vars
    obtain ⟨f6, rfl⟩ : ∃ k, fuel = k + 6 := ⟨fuel - 6, by omega⟩
    simp [cpsSequenceF, atFinalElement, cpsSeqFinal, seqLinks, seqEnd, chainNode]
  | cons tv rest ih =>
    intro fuel hb cont c vars
    obtain ⟨t, r⟩ := tv
    obtain ⟨f6, rfl⟩ : ∃ k, fuel = k + 6 := ⟨fuel - 6, by omega⟩
    have hb' : rest.length + 6 ≤ f6 + 5 := by
      simp [List.length_cons] at hb
      omega
    simp only [List.map_cons]
    rw [cpsSequenceF]
    simp only [atFinalElement, List.length_cons, Nat.add_eq, Nat.succ_ne_zero,
      beq_iff_eq, if_false, CM_bind_apply, gensym_apply]
    rw [ih (f6 + 5) hb' cont (c + 1) (vars ++ [Node.identifier (gname "s" c)])]
    simp only [buildFunc_chainNode, liftE]
    simp [mkNativeCall, cpsF, cpsApplicationF, cpsSequenceF, atFinalElement, cpsSeqFinal,
      cpsAtomicF, liftE, buildFunc, convertToStatement, isStatementNode, isExpressionNode,
      seqLinks, seqEnd, chainNode, List.append_assoc, List.singleton_append]
    rfl

end Webppl

namespace Webppl

theorem seqLinks_length (tvs : List (String × Value)) :
    ∀ c : Nat, (seqLinks tvs c).length = tvs.length := by
  induction tvs with
  | nil => intro c; rfl
  | cons tv rest ih =>
    intro c
    obtain ⟨t, r⟩ := tv
    simp [seqLinks, ih]

theorem seqLinks_probes (tvs : List (String × Value)) :
    ∀ c : Nat, chainProbes (seqLinks tvs c) = tvs.map (fun tv => ((tv.1, []) : LEnt)) := by
  induction tvs with
  | nil => intro c; rfl
  | cons tv rest ih =>
    intro c
    obtain ⟨t, r⟩ := tv
    simp only [seqLinks, chainProbes, List.map_cons]
    have := ih (c + 1)
    simp only [chainProbes] at this
    rw [this]

theorem seqLinks_rets (tvs : List (String × Value)) :
    ∀ c : Nat, (seqLinks tvs c).map (fun l => l.ret) = tvs.map (fun tv => tv.2) := by
  induction tvs with
  | nil => intro c; rfl
  | cons tv rest ih =>
    intro c
    obtain ⟨t, r⟩ := tv
    simp [seqLinks, ih]

theorem evalListF_idents :
    ∀ (ids : List (String × Value)) (fuel : Nat), ids.length + 2 ≤ fuel →
      ∀ (env : Env) (lg : List LEnt),
        (∀ p ∈ ids, p.1 ≠ "undefined" ∧ assocV env p.1 = some p.2) →
        evalListF fuel env (ids.map (fun p => Node.identifier p.1)) lg =
          some (ids.map (fun p => p.2), lg) := by
  intro ids
  induction ids with
  | nil =>
    intro fuel hb env lg _
    obtain ⟨m, rfl⟩ : ∃ k, fuel = k + 2 := ⟨fuel - 2, by omega⟩
    rfl
  | cons p rest ih =>
    intro fuel hb env lg h
    obtain ⟨m, rfl⟩ : ∃ k, fuel = k + 2 := ⟨fuel - 2, by omega⟩
    obtain ⟨hne, hlook⟩ := h p (by simp)
    have hrest : ∀ q ∈ rest, q.1 ≠ "undefined" ∧ assocV env q.1 = some q.2 :=
      fun q hq => h q (by simp [hq])
    have hb' : rest.length + 2 ≤ m + 1 := by
      simp [List.length_cons] at hb; omega
    simp [evalListF, evalF, hne, liftO, hlook, ih (m + 1) hb' env lg hrest]

theorem finalCall_run (ids : List (String × Value)) (k0 ktag : String) (dret : Value)
    (env : Env) (fuel : Nat) (hb : ids.length + 5 ≤ fuel)
    (hk0ne : k0 ≠ "undefined")
    (hk0 : assocV env k0 = some (Value.native false ktag dret))
    (hids : ∀ p ∈ ids, p.1 ≠ "undefined" ∧ assocV env p.1 = some p.2) :
    evalF fuel env
        (Node.callExpression (Node.identifier k0)
          [Node.arrayExpression (ids.map (fun p => Node.identifier p.1))]) [] =
      some (dret, [(ktag, [Value.varr (ids.map (fun p => p.2))])]) := by
  obtain ⟨m, rfl⟩ : ∃ k, fuel = k + 5 := ⟨fuel - 5, by omega⟩
  have hlist := evalListF_idents ids (m + 2) (by omega) env [] hids
  simp [evalF, evalListF, applyV, liftO, emit, hk0ne, hk0, hlist]

theorem evalListF_nativeCalls :
    ∀ (tvs : List (String × Value)) (fuel : Nat), tvs.length + 3 ≤ fuel →
      ∀ (env : Env) (lg : List LEnt),
        (∀ p ∈ tvs, p.1 ≠ "undefined" ∧ assocV env p.1 = some (Value.native false p.1 p.2)) →
        evalListF fuel env (tvs.map (fun tv => mkNativeCall tv.1)) lg =
          some (tvs.map (fun tv => tv.2), lg ++ tvs.map (fun tv => ((tv.1, []) : LEnt))) := by
  intro tvs
  induction tvs with
  | nil =>
    intro fuel hb env lg _
    obtain ⟨m, rfl⟩ : ∃ k, fuel = k + 3 := ⟨fuel - 3, by omega⟩
    simp [evalListF]
  | cons tv rest ih =>
    intro fuel hb env lg h
    obtain ⟨m, rfl⟩ : ∃ k, fuel = k + 3 := ⟨fuel - 3, by omega⟩
    obtain ⟨t, r⟩ := tv
    obtain ⟨hne, hlook⟩ := h (t, r) (by simp)
    have hrest : ∀ q ∈ rest, q.1 ≠ "undefined" ∧ assocV env q.1 = some (Value.native false q.1 q.2) :=
      fun q hq => h q (by simp [hq])
    have hb' : rest.length + 3 ≤ m + 2 := by
      simp [List.length_cons] at hb; omega
    have ihr := ih (m + 2) hb' env (lg ++ [(t, [])]) hrest
    simp only [mkNativeCall] at ihr
    simp [mkNativeCall, evalListF, evalF, hne, liftO, hlook, applyV, emit,
      ihr, List.append_assoc]

theorem direct_nativeArray_run (tvs : List (String × Value)) (fuel : Nat)
    (hb : tvs.length + 4 ≤ fuel) (env : Env)
    (h : ∀ p ∈ tvs, p.1 ≠ "undefined" ∧ assocV env p.1 = some (Value.native false p.1 p.2)) :
    evalF fuel env (Node.arrayExpression (tvs.map (fun tv => mkNativeCall tv.1))) [] =
      some (Value.varr (tvs.map (fun tv => tv.2)), tvs.map (fun tv => ((tv.1, []) : LEnt))) := by
  obtain ⟨m, rfl⟩ : ∃ k, fuel = k + 4 := ⟨fuel - 4, by omega⟩
  have hlist := evalListF_nativeCalls tvs (m + 3) (by omega) env [] h
  simp [evalF, hlist]

theorem cps_nativeArray_run (tvs : List (String × Value)) (c : Nat) (k0 ktag : String)
    (dret : Value) (E : Env)
    (hwf : chainWF E (seqLinks tvs c))
    (hids : ∀ p ∈ (seqLinks tvs c).map (fun l => (l.outerName, l.ret)),
      p.1 ≠ "undefined" ∧ assocV (chainEnv E (seqLinks tvs c)) p.1 = some p.2)
    (hk0ne : k0 ≠ "undefined")
    (hk0 : assocV (chainEnv E (seqLinks tvs c)) k0 = some (Value.native false ktag dret)) :
    ∃ compiled w,
      cpsSequenceF (tvs.length + 6) SeqKind.arrayK (Node.identifier k0)
          (tvs.map (fun tv => mkNativeCall tv.1)) [] c = Res.ok compiled (seqEnd tvs c) ∧
      evalF ((tvs.length + 5) + 11 * tvs.length) E compiled [] =
        some (w, tvs.map (fun tv => ((tv.1, []) : LEnt)) ++
          [(ktag, [Value.varr (tvs.map (fun tv => tv.2))])]) := by
  have hcomp := cpsSequence_nativeCalls tvs (tvs.length + 6) (Nat.le_refl _)
    (Node.identifier k0) c []
  have hblen : ((seqLinks tvs c).map (fun l => (l.outerName, l.ret))).length + 5 ≤
      tvs.length + 5 := by
    rw [List.length_map, seqLinks_length]
  have hfin0 := finalCall_run ((seqLinks tvs c).map (fun l => (l.outerName, l.ret)))
    k0 ktag dret (chainEnv E (seqLinks tvs c)) (tvs.length + 5) hblen hk0ne hk0 hids
  have hfin : evalF (tvs.length + 5) (chainEnv E (seqLinks tvs c))
      (Node.callExpression (Node.identifier k0)
        [Node.arrayExpression
          ([] ++ (seqLinks tvs c).map (fun l => Node.identifier l.outerName))]) [] =
      some (dret, [(ktag, [Value.varr (tvs.map (fun tv => tv.2))])]) := by
    simpa [List.map_map, Function.comp_def, seqLinks_rets] using hfin0
  obtain ⟨w, hw⟩ := chainNode_eval _ (tvs.length + 5) dret _ (seqLinks tvs c) E hwf hfin []
  rw [seqLinks_length] at hw
  refine ⟨_, w, hcomp, ?_⟩
  simpa [seqLinks_probes] using hw

end Webppl

namespace Webppl

/-- Claim C1 amended: a return statement is compiled by delivering its
argument's value to the reserved return continuation _return, and the
supplied continuation k is discarded; for every other exercised form
the compiled tree follows the continuation contract: an empty
statement compiles to invoking the continuation on the undefined
identifier, a variable declaration with a non-function initializer
compiles the initializer against a continuation that binds the
declared name and invokes the outer continuation with undefined, the
probabilistic-construct-free program 3 + 4 compiled against the
recording continuation done invokes done(7), the value-less programs
consisting of an empty statement or of a declaration deliver the
undefined sentinel to done, and for every array expression whose
elements are calls to effectful external functions, the compiled tree,
run in any well-formed environment, performs exactly the observable
calls of the direct-style evaluation, in the same order, and then
passes the direct-style result value to the continuation. -/
theorem claim1_amended_cps_contract :
    (∀ (fuel : Nat) (argument cont : Node) (n : Nat),
      cpsF (fuel + 1) (Node.returnStatement argument) cont n =
        cpsF fuel argument returnContIdentifier n) ∧
    (∀ (fuel : Nat) (cont : Node) (n : Nat),
      cpsF (fuel + 2) Node.emptyStatement cont n =
        Res.ok (Node.callExpression cont [Node.identifier "undefined"]) n) ∧
    (∀ (fuel : Nat) (declId init cont : Node) (n : Nat),
      isFunctionNode init = false →
      cpsVariableDeclarationF (fuel + 1) declId init cont n =
        cpsF fuel init
          (Node.functionExpression [declId]
            (Node.blockStatement
              [Node.expressionStatement
                (Node.callExpression cont [Node.identifier "undefined"])])) n) ∧
    runCompiled 50 100
        (Node.program [Node.expressionStatement
          (Node.binaryExpression "+" (Node.literal (LitVal.num 3))
            (Node.literal (LitVal.num 4)))])
        "done" [("done", Value.native false "done" Value.undef)] =
      some (Value.undef, [("done", [Value.num 7])]) ∧
    runCompiled 50 100 (Node.program [Node.emptyStatement])
        "done" [("done", Value.native false "done" Value.undef)] =
      some (Value.undef, [("done", [Value.undef])]) ∧
    runCompiled 50 100
        (Node.program [Node.variableDeclaration
          [(Node.identifier "x", Node.literal (LitVal.num 5))]])
        "done" [("done", Value.native false "done" Value.undef)] =
      some (Value.undef, [("done", [Value.undef])]) ∧
    (∀ (tvs : List (String × Value)) (c : Nat) (k0 ktag : String) (dret : Value) (Ed E : Env),
      tvs.Forall (fun p => p.1 ≠ "undefined" ∧
        assocV Ed p.1 = some (Value.native false p.1 p.2)) →
      chainWF E (seqLinks tvs c) →
      ((seqLinks tvs c).map (fun l => (l.outerName, l.ret))).Forall
        (fun p => p.1 ≠ "undefined" ∧
          assocV (chainEnv E (seqLinks tvs c)) p.1 = some p.2) →
      k0 ≠ "undefined" →
      assocV (chainEnv E (seqLinks tvs c)) k0 = some (Value.native false ktag dret) →
      evalF (tvs.length + 4) Ed
          (Node.arrayExpression (tvs.map (fun tv => mkNativeCall tv.1))) [] =
        some (Value.varr (tvs.map (fun tv => tv.2)),
          tvs.map (fun tv => ((tv.1, []) : LEnt))) ∧
      ∃ compiled w,
        cpsF (tvs.length + 7)
            (Node.arrayExpression (tvs.map (fun tv => mkNativeCall tv.1)))
            (Node.identifier k0) c = Res.ok compiled (seqEnd tvs c) ∧
        evalF ((tvs.length + 5) + 11 * tvs.length) E compiled [] =
          some (w, tvs.map (fun tv => ((tv.1, []) : LEnt)) ++
            [(ktag, [Value.varr (tvs.map (fun tv => tv.2))])])) := by
  refine ⟨fun _ _ _ _ => rfl, fun _ _ _ => rfl, ?_, rfl, rfl, rfl, ?_⟩
  · intro fuel declId init cont n h
    cases init <;> first | rfl | simp [isFunctionNode] at h
  · intro tvs c k0 ktag dret Ed E hd hwf hids hk0ne hk0
    rw [List.forall_iff_forall_mem] at hd hids
    refine ⟨direct_nativeArray_run tvs (tvs.length + 4) (Nat.le_refl _) Ed hd, ?_⟩
    exact cps_nativeArray_run tvs c k0 ktag dret E hwf hids hk0ne hk0

/-- Claim C1 witness: the declaration-compilation equation at
var x = 5 against done, and the full contract at the array [a(), b()]
in a concrete environment: the direct run yields [1, 2] emitting
probes a then b, and the compiled tree emits the same probes in the
same order and then passes [1, 2] to the recording continuation. -/
theorem claim1_witness :
    (cpsVariableDeclarationF 3 (Node.identifier "x") (Node.literal (LitVal.num 5))
        (Node.identifier "done") 0 =
      cpsF 2 (Node.literal (LitVal.num 5))
        (Node.functionExpression [Node.identifier "x"]
          (Node.blockStatement
            [Node.expressionStatement
              (Node.callExpression (Node.identifier "done") [Node.identifier "undefined"])])) 0) ∧
    (evalF 6 [("a", Value.native false "a" (Value.num 1)),
              ("b", Value.native false "b" (Value.num 2))]
        (Node.arrayExpression [mkNativeCall "a", mkNativeCall "b"]) [] =
      some (Value.varr [Value.num 1, Value.num 2], [("a", []), ("b", [])]) ∧
    ∃ compiled w,
      cpsF 9 (Node.arrayExpression [mkNativeCall "a", mkNativeCall "b"])
          (Node.identifier "k") 0 = Res.ok compiled 4 ∧
      evalF 29 [("k", Value.native false "done" Value.undef),
                ("a", Value.native true "a" (Value.num 1)),
                ("b", Value.native true "b" (Value.num 2))] compiled [] =
        some (w, [("a", []), ("b", []),
          ("done", [Value.varr [Value.num 1, Value.num 2]])])) :=
  ⟨claim1_amended_cps_contract.2.2.1 2 (Node.identifier "x") (Node.literal (LitVal.num 5))
      (Node.identifier "done") 0 rfl,
   claim1_amended_cps_contract.2.2.2.2.2.2
      [("a", Value.num 1), ("b", Value.num 2)] 0 "k" "done" Value.undef
      [("a", Value.native false "a" (Value.num 1)),
       ("b", Value.native false "b" (Value.num 2))]
      [("k", Value.native false "done" Value.undef),
       ("a", Value.native true "a" (Value.num 1)),
       ("b", Value.native true "b" (Value.num 2))]
      ⟨⟨by decide, rfl⟩, ⟨by decide, rfl⟩⟩
      ⟨rfl, by decide, by decide, rfl, by decide, by decide, trivial⟩
      ⟨⟨by decide, rfl⟩, ⟨by decide, rfl⟩⟩
      (by decide) rfl⟩

/-- Claim C5 amended: the sequencing primitive compiles the first
remaining operand exactly once, against a continuation that binds one
fresh name and contains the compiled remainder of the operand list, so
compiled operand code is emitted once per operand, nested in
left-to-right source order; semantically, for every list of operands
that are calls to effectful external functions, the compiled chain,
run in any well-formed environment, invokes each operand's function
exactly once, in source order, and then passes the array of their
results to the continuation.  But a return statement among
statement-sequence operands compiles against the reserved return
continuation and discards its own continuation, so the code of the
following operands is dropped and never evaluated.  In particular, for
f(a(), b()) with observable effects in a and b, the compiled form
invokes a strictly before b, exactly once each, for both compound and
primitive callees. -/
theorem claim5_amended_sequencing :
    (∀ (fuel : Nat) (kind : SeqKind) (cont n0 : Node) (rest vars : List Node) (n : Nat),
      atFinalElement kind (n0 :: rest) = false →
      cpsSequenceF (fuel + 1) kind cont (n0 :: rest) vars n =
        (do
          let nextVar ← makeGensymVariable "s"
          let restNode ← cpsSequenceF fuel kind cont rest (vars ++ [nextVar])
          let contFunc ← liftE (buildFunc [nextVar] restNode)
          cpsF fuel n0 contFunc) n) ∧
    (∀ (fuel : Nat) (argument cont : Node) (n : Nat),
      cpsF (fuel + 1) (Node.returnStatement argument) cont n =
        cpsF fuel argument returnContIdentifier n) ∧
    runCompiled 50 100
        (Node.program [Node.expressionStatement
          (Node.callExpression (Node.identifier "f")
            [Node.callExpression (Node.identifier "a") [],
             Node.callExpression (Node.identifier "b") []])])
        "done"
        [("done", Value.native false "done" Value.undef),
         ("a", Value.native true "a" (Value.num 1)),
         ("b", Value.native true "b" (Value.num 2)),
         ("f", Value.native true "f" (Value.num 0))] =
      some (Value.undef,
        [("a", []), ("b", []), ("f", [Value.num 1, Value.num 2]), ("done", [Value.num 0])]) ∧
    runCompiled 50 100
        (Node.program [Node.expressionStatement
          (Node.callExpression
            (Node.memberExpression (Node.identifier "m") (Node.identifier "f") false)
            [Node.callExpression (Node.identifier "a") [],
             Node.callExpression (Node.identifier "b") []])])
        "done"
        [("done", Value.native false "done" Value.undef),
         ("a", Value.native true "a" (Value.num 1)),
         ("b", Value.native true "b" (Value.num 2)),
         ("m", Value.vobj [("f", Value.native false "mf" (Value.num 7))])] =
      some (Value.undef,
        [("a", []), ("b", []), ("mf", [Value.num 1, Value.num 2]), ("done", [Value.num 7])]) ∧
    (∀ (tvs : List (String × Value)) (c : Nat) (k0 ktag : String) (dret : Value) (E : Env),
      chainWF E (seqLinks tvs c) →
      ((seqLinks tvs c).map (fun l => (l.outerName, l.ret))).Forall
        (fun p => p.1 ≠ "undefined" ∧
          assocV (chainEnv E (seqLinks tvs c)) p.1 = some p.2) →
      k0 ≠ "undefined" →
      assocV (chainEnv E (seqLinks tvs c)) k0 = some (Value.native false ktag dret) →
      ∃ compiled w,
        cpsSequenceF (tvs.length + 6) SeqKind.arrayK (Node.identifier k0)
            (tvs.map (fun tv => mkNativeCall tv.1)) [] c = Res.ok compiled (seqEnd tvs c) ∧
        evalF ((tvs.length + 5) + 11 * tvs.length) E compiled [] =
          some (w, tvs.map (fun tv => ((tv.1, []) : LEnt)) ++
            [(ktag, [Value.varr (tvs.map (fun tv => tv.2))])])) := by
  refine ⟨?_, fun _ _ _ _ => rfl, rfl, rfl, ?_⟩
  · intro fuel kind cont n0 rest vars n h
    simp [cpsSequenceF, h]
  · intro tvs c k0 ktag dret E hwf hids hk0ne hk0
    rw [List.forall_iff_forall_mem] at hids
    exact cps_nativeArray_run tvs c k0 ktag dret E hwf hids hk0ne hk0

/-- Claim C5 witness: the sequencing equation at the singleton operand
list [f] of a compound application against done, and the semantic
order/once-ness at the operand list [p(), q()] in a concrete
environment: the compiled chain invokes p then q, exactly once each,
and passes [3, 4] to the recording continuation. -/
theorem claim5_witness :
    (cpsSequenceF 6 SeqKind.compApp (Node.identifier "done") [Node.identifier "f"] [] 0 =
      (do
        let nextVar ← makeGensymVariable "s"
        let restNode ← cpsSequenceF 5 SeqKind.compApp (Node.identifier "done") []
          ([] ++ [nextVar])
        let contFunc ← liftE (buildFunc [nextVar] restNode)
        cpsF 5 (Node.identifier "f") contFunc) 0) ∧
    ∃ compiled w,
      cpsSequenceF 8 SeqKind.arrayK (Node.identifier "k")
          [mkNativeCall "p", mkNativeCall "q"] [] 0 = Res.ok compiled 4 ∧
      evalF 29 [("k", Value.native false "done" Value.undef),
                ("p", Value.native true "p" (Value.num 3)),
                ("q", Value.native true "q" (Value.num 4))] compiled [] =
        some (w, [("p", []), ("q", []),
          ("done", [Value.varr [Value.num 3, Value.num 4]])]) :=
  ⟨claim5_amended_sequencing.1 5 SeqKind.compApp (Node.identifier "done")
      (Node.identifier "f") [] [] 0 rfl,
   claim5_amended_sequencing.2.2.2.2
      [("p", Value.num 3), ("q", Value.num 4)] 0 "k" "done" Value.undef
      [("k", Value.native false "done" Value.undef),
       ("p", Value.native true "p" (Value.num 3)),
       ("q", Value.native true "q" (Value.num 4))]
      ⟨rfl, by decide, by decide, rfl, by decide, by decide, trivial⟩
      ⟨⟨by decide, rfl⟩, ⟨by decide, rfl⟩⟩
      (by decide) rfl⟩

end Webppl
